import Mathlib

/-!
Verification of the roze-mcp bridge server (TypeScript sources under `src/`).

The development shallowly embeds the tool-dispatch pipeline of the repository:
`config.ts` (environment targeting and proxy policy), the Firebase-callable
wrapper (`callHealthz` / `callCreateOrder` / `callCreateSubscription`),
`http.ts` (`makeRequest` and `sanitizeError`), `mcp.ts` (tool handlers
`createOrder`, `createSubscription`, `healthCheck`, `readOpenAPI`,
`readSchema`, `getApiBaseUrl`) and `server.ts` (`callTool`, `handleRequest`
and the line-oriented transport loop).

Machine-level conventions of the embedding:
* JavaScript runtime values flowing through `any`-typed positions are
  modelled by the `Json` inductive; `Option Json` models possibly-`undefined`
  values produced by optional chaining.
* The JSON-schema validators compiled by AJV (`new Ajv({ allErrors: true })`)
  are abstracted as functions returning the list of all constraint
  violations of a payload (empty list = valid); the schema files themselves
  are not part of the source tree.
* Network and Firebase backends are oracles supplied as parameters; tool
  handlers additionally return the list of side-effect events (`GEvent`)
  they performed, so "the Backend Gateway is never invoked" is the absence
  of a `GEvent.gateway` event.
-/

namespace RozeMcp

/-- JavaScript/JSON runtime values (the `any`-typed payloads of the bridge). -/
inductive Json where
  | null
  | bool (b : Bool)
  | num (n : Int)
  | str (s : String)
  | arr (elems : List Json)
  | obj (fields : List (String × Json))

/-- Property lookup on a JSON object, `undefined` as `none` (JS `o.k`). -/
def jlookup : List (String × Json) → String → Option Json
  | [], _ => none
  | (k, v) :: kvs, key => if k = key then some v else jlookup kvs key

/-- `x?.k` for a possibly-undefined JS value: non-objects give `undefined`. -/
def jgetOpt (x : Option Json) (key : String) : Option Json :=
  match x with
  | some (.obj kvs) => jlookup kvs key
  | _ => none

/-- JavaScript truthiness of a possibly-undefined value (`if (!x)` tests). -/
def jsTruthy (x : Option Json) : Bool :=
  match x with
  | none => false
  | some .null => false
  | some (.bool b) => b
  | some (.num n) => n ≠ 0
  | some (.str s) => s ≠ ""
  | some (.arr _) => true
  | some (.obj _) => true

/-- Rough rendering of a JS value inside a template literal (display only;
no claim depends on its exact text). -/
def jdisp : Json → String
  | .null => "null"
  | .bool true => "true"
  | .bool false => "false"
  | .num n => toString n
  | .str s => s
  | .arr _ => "[object Array]"
  | .obj _ => "[object Object]"

/-! ### config.ts -/

/-- `PROXY_MODE` configuration value (zod enum `['dev-only', 'all']`). -/
inductive ProxyMode where
  | devOnly
  | all
  deriving DecidableEq

/-- Log level (zod enum; not interpreted further, logging is out of scope). -/
inductive LogLevel where
  | debug | info | warn | error
  deriving DecidableEq

/-- The validated environment configuration (`config` in config.ts). -/
structure Config where
  apiBaseDev : String
  apiBaseProd : String
  proxyMode : ProxyMode
  logLevel : LogLevel

/-- `getApiBase` from config.ts.  The TS annotation `ApiTarget` is erased at
runtime, so the target is an arbitrary string; `target === 'dev'` selects the
dev base and anything else resolves to the production base. -/
def getApiBase (cfg : Config) (target : String) : String :=
  if target = "dev" then cfg.apiBaseDev else cfg.apiBaseProd

/-- `isProxyAllowed` from config.ts: mode `all` permits everything,
`dev-only` permits exactly the string `dev`. -/
def isProxyAllowed (cfg : Config) (target : String) : Bool :=
  match cfg.proxyMode with
  | .all => true
  | .devOnly => target = "dev"

/-! ### Firebase-callable wrapper (`callHealthz` and friends)

The callable functions are remote; their outcome is supplied as a value of
`FbOutcome`.  A thrown Firebase error carries an optional `code` and an
optional `message` (absent fields are `undefined` in JS, `none` here). -/

inductive FbOutcome where
  | ok (data : Json)
  | err (code : Option String) (message : Option String)

/-- Result shape `FirebaseResponse` of the callable wrapper. -/
structure FirebaseResponse where
  ok : Bool
  status : Option Nat
  body : Option Json
  error : Option String

/-- `error.message || 'Firebase function call failed'` (empty string and
`undefined` are falsy). -/
def fbErrMessage (m : Option String) : String :=
  match m with
  | some s => if s = "" then "Firebase function call failed" else s
  | none => "Firebase function call failed"

/-- `{ error: error.message }`: an `undefined` message is modelled as
`Json.null` (the field is dropped by JSON serialization either way). -/
def fbErrBody (m : Option String) : Json :=
  .obj [("error", match m with | some s => .str s | none => .null)]

/-- `callHealthz` from the callable wrapper: on a thrown error only the
`unauthenticated` code is mapped (to 401); every other code gives 500. -/
def callHealthz (o : FbOutcome) : FirebaseResponse :=
  match o with
  | .ok data => ⟨true, some 200, some data, none⟩
  | .err code message =>
      ⟨false,
       some (if code = some "unauthenticated" then 401 else 500),
       some (fbErrBody message),
       some (fbErrMessage message)⟩

/-- Error-code table of `callCreateOrder` / `callCreateSubscription`:
unauthenticated, permission-denied, invalid-argument, else 500. -/
def fbStatusTable (code : Option String) : Nat :=
  if code = some "unauthenticated" then 401
  else if code = some "permission-denied" then 403
  else if code = some "invalid-argument" then 400
  else 500

/-- `callCreateOrder` from the callable wrapper. -/
def callCreateOrder (payload : Json) (o : FbOutcome) : FirebaseResponse :=
  match payload, o with
  | _, .ok data => ⟨true, some 200, some data, none⟩
  | _, .err code message =>
      ⟨false, some (fbStatusTable code), some (fbErrBody message),
       some (fbErrMessage message)⟩

/-- `callCreateSubscription` from the callable wrapper (same body as
`callCreateOrder`). -/
def callCreateSubscription (payload : Json) (o : FbOutcome) : FirebaseResponse :=
  match payload, o with
  | _, .ok data => ⟨true, some 200, some data, none⟩
  | _, .err code message =>
      ⟨false, some (fbStatusTable code), some (fbErrBody message),
       some (fbErrMessage message)⟩

/-! ### http.ts: `sanitizeError`

`sanitizeError` applies four global case-insensitive regex replacements in
order:

    api[_-]?key[s]?[=:]\s*[^\s&]+   ->  api_key=***
    token[s]?[=:]\s*[^\s&]+         ->  token=***
    secret[s]?[=:]\s*[^\s&]+        ->  secret=***
    password[s]?[=:]\s*[^\s&]+      ->  password=***

Each pattern is embedded as a list of components (`PComp`): literal
characters matched case-insensitively, an optional character class, the
separator class `[=:]`, and the final `\s*[^\s&]+` step (skip whitespace,
then a non-empty maximal run of value characters).  Global replacement is
the usual leftmost scan that, after a match, resumes right after the
matched span, and otherwise advances one character. -/

/-- Whitespace as in the regex class `\s` (ASCII part). -/
def isWS (c : Char) : Bool :=
  c = ' ' || c = '\t' || c = '\n' || c = '\r' || c = '\x0b' || c = '\x0c'

/-- Value characters `[^\s&]`. -/
def isVal (c : Char) : Bool := !isWS c && c ≠ '&'

/-- Separator class `[=:]`. -/
def sepC (c : Char) : Bool := c = '=' || c = ':'

/-- Case-insensitive character comparison (the regexes carry the `i` flag). -/
def lowEq (a b : Char) : Bool := a.toLower = b.toLower

/-- One component of a secret-matching regex. -/
inductive PComp where
  | lit (k : Char)
  | opt (ks : List Char)
  | sep
  | val
  deriving DecidableEq

/-- Run the components of a pattern at the head of a character list.  On a
match, returns the matched value (the `[^\s&]+` part) and the remainder of
the list after the match. -/
def runMV : List PComp → List Char → Option (List Char × List Char)
  | [], _ => none
  | .lit _ :: _, [] => none
  | .lit k :: ps, c :: l => if lowEq c k then runMV ps l else none
  | .opt _ :: ps, [] => runMV ps []
  | .opt ks :: ps, c :: l =>
      if ks.any (lowEq c) then runMV ps l else runMV ps (c :: l)
  | .sep :: _, [] => none
  | .sep :: ps, c :: l => if sepC c then runMV ps l else none
  | .val :: _, l =>
      let l1 := l.dropWhile isWS
      let v := l1.takeWhile isVal
      if v.isEmpty then none else some (v, l1.dropWhile isVal)

/-- Canonical replacement text of a pattern: the lowercase key name, `=`,
and the three redaction stars (`api_key=***` and so on). -/
def canonRender : List PComp → List Char
  | [] => []
  | .lit k :: ps => k :: canonRender ps
  | .opt ks :: ps => (if ks.contains '_' then ['_'] else []) ++ canonRender ps
  | .sep :: ps => '=' :: canonRender ps
  | .val :: ps => '*' :: '*' :: '*' :: canonRender ps

/-- `api[_-]?key[s]?[=:]\s*[^\s&]+` -/
def apiC : List PComp :=
  [.lit 'a', .lit 'p', .lit 'i', .opt ['_', '-'], .lit 'k', .lit 'e',
   .lit 'y', .opt ['s'], .sep, .val]

/-- `token[s]?[=:]\s*[^\s&]+` -/
def tokenC : List PComp :=
  [.lit 't', .lit 'o', .lit 'k', .lit 'e', .lit 'n', .opt ['s'], .sep, .val]

/-- `secret[s]?[=:]\s*[^\s&]+` -/
def secretC : List PComp :=
  [.lit 's', .lit 'e', .lit 'c', .lit 'r', .lit 'e', .lit 't', .opt ['s'],
   .sep, .val]

/-- `password[s]?[=:]\s*[^\s&]+` -/
def passwordC : List PComp :=
  [.lit 'p', .lit 'a', .lit 's', .lit 's', .lit 'w', .lit 'o', .lit 'r',
   .lit 'd', .opt ['s'], .sep, .val]

/-- Termination measure fact for the scanner: a successful match consumes
at least one character (the non-empty value part). -/
def runMV_some_lt {cs : List PComp} {l v r : List Char}
    (h : runMV cs l = some (v, r)) : r.length < l.length := by
  induction cs generalizing l with
  | nil => simp [runMV] at h
  | cons p ps ih =>
    cases p with
    | lit k =>
      cases l with
      | nil => simp [runMV] at h
      | cons c t =>
        simp only [runMV] at h
        split at h
        · exact Nat.lt_succ_of_lt (ih h)
        · exact absurd h (by simp)
    | opt ks =>
      cases l with
      | nil =>
        simp only [runMV] at h
        exact ih h
      | cons c t =>
        simp only [runMV] at h
        split at h
        · exact Nat.lt_succ_of_lt (ih h)
        · exact ih h
    | sep =>
      cases l with
      | nil => simp [runMV] at h
      | cons c t =>
        simp only [runMV] at h
        split at h
        · exact Nat.lt_succ_of_lt (ih h)
        · exact absurd h (by simp)
    | val =>
      simp only [runMV] at h
      split at h
      · exact absurd h (by simp)
      · rename_i hv
        have hp : (l.dropWhile isWS).takeWhile isVal = v
            ∧ (l.dropWhile isWS).dropWhile isVal = r := by
          simpa using h
        have hsplit : ((l.dropWhile isWS).takeWhile isVal).length
            + ((l.dropWhile isWS).dropWhile isVal).length
            = (l.dropWhile isWS).length := by
          rw [← List.length_append, List.takeWhile_append_dropWhile]
        have hvne : ((l.dropWhile isWS).takeWhile isVal) ≠ [] := by
          intro hcon
          rw [hcon] at hv
          simp at hv
        have hvlen : 0 < ((l.dropWhile isWS).takeWhile isVal).length :=
          List.length_pos.mpr hvne
        have h2 : (l.takeWhile isWS).length + (l.dropWhile isWS).length
            = l.length := by
          rw [← List.length_append, List.takeWhile_append_dropWhile]
        rw [← hp.2]
        omega

/-- Global replacement of one secret pattern (the JS `String.replace` with
the `g` flag): at each position try the pattern; on a match emit the
canonical replacement and resume after the matched span, otherwise copy one
character. -/
def scanP (q : List PComp) : List Char → List Char
  | [] => []
  | c :: l =>
    match h : runMV q (c :: l) with
    | some (_, rest) => canonRender q ++ scanP q rest
    | none => c :: scanP q l
termination_by l => l.length
decreasing_by
  · exact runMV_some_lt h
  · simp

/-- `sanitizeError` from http.ts: the four replacements in source order. -/
def sanitizeChars (l : List Char) : List Char :=
  scanP passwordC (scanP secretC (scanP tokenC (scanP apiC l)))

/-- `sanitizeError` on strings. -/
def sanitizeError (s : String) : String := ⟨sanitizeChars s.data⟩

/-! ### http.ts: `makeRequest` -/

/-- Normalized HTTP result shape `ApiResponse` of http.ts. -/
structure ApiResponse where
  status : Nat
  body : Json
  ok : Bool
  error : Option String

/-- Outcome of the underlying axios call: an HTTP response of any status
(`validateStatus: () => true` disables throwing on 4xx/5xx), an
`AxiosError` (network, DNS, timeout, connection refused — possibly carrying
a response status) with its message, or a non-axios fault. -/
inductive HttpOutcome where
  | response (status : Nat) (data : Json)
  | axiosError (respStatus : Option Nat) (message : String)
  | otherError

/-- `makeRequest` from http.ts, as a function of the transport outcome.
HTTP responses are returned with `ok` iff the status is in 200..299; axios
faults are caught and produce `ok:false` with a sanitized error message
(`error.response?.status || 0` for the status); other faults produce the
fixed unknown-error result.  The function is total: no fault propagates. -/
def makeRequest (o : HttpOutcome) : ApiResponse :=
  match o with
  | .response s d => ⟨s, d, decide (200 ≤ s) && decide (s < 300), none⟩
  | .axiosError rs msg => ⟨rs.getD 0, .null, false, some (sanitizeError msg)⟩
  | .otherError => ⟨0, .null, false, some "Unknown network error"⟩

/-! ### mcp.ts: tool handlers

The AJV validators (compiled with `allErrors: true`) are abstracted as
functions from a payload to the list of all its constraint violations; an
empty list means the payload is valid.  The network is an oracle mapping a
request (method, url, optional body) to its transport outcome.  Handlers
additionally return the list of observable `GEvent`s (schema validations
performed, Backend Gateway invocations made), in execution order. -/

/-- One AJV error object (`instancePath` and `message` fields). -/
structure AjvErr where
  instancePath : String
  message : String

/-- `${err.instancePath || 'root'}: ${err.message}` (empty path is falsy). -/
def fmtErr (e : AjvErr) : String :=
  (if e.instancePath = "" then "root" else e.instancePath) ++ ": " ++ e.message

/-- `array.join('; ')` over the formatted errors. -/
def joinStrs (sep : String) : List String → String
  | [] => ""
  | [x] => x
  | x :: y :: xs => x ++ sep ++ joinStrs sep (y :: xs)

/-- The `details` string of a validation failure. -/
def joinErrors (errs : List AjvErr) : String :=
  joinStrs "; " (errs.map fmtErr)

/-- Observable side effects of a tool handler. -/
inductive GEvent where
  | validate (schema : String)
  | gateway (method : String) (url : String) (payload : Option Json)

/-- The network oracle: behaviour of the remote side for a given request. -/
def Net : Type := String → String → Option Json → HttpOutcome

/-- Environment of the MCP tool layer: the contract documents loaded at
startup (.openapi is `none` when the file read fails at call time), the two
compiled schema documents, the two abstracted validators and the network. -/
structure Env where
  openapi : Option String
  orderSchema : Json
  subscribeSchema : Json
  validateOrder : Json → List AjvErr
  validateSubscribe : Json → List AjvErr
  net : Net

/-- The structured policy refusal built by `createOrder` /
`createSubscription` when `isProxyAllowed` rejects the target. -/
def proxyRefusal (target : String) : ApiResponse :=
  { ok := false
    status := 403
    body := .obj
      [("error",
        .str "Proxy disabled in prod; call from app clients with App Check/Auth"),
       ("target", .str target),
       ("proxyMode", .str "dev-only")]
    error := some "Production proxy calls are disabled for security" }

/-- The 400 result built from a non-empty AJV error list. -/
def validationFailure (errs : List AjvErr) : ApiResponse :=
  { status := 400
    body := .obj [("error", .str "Validation failed"),
                  ("details", .str (joinErrors errs))]
    ok := false
    error := some ("Schema validation failed: " ++ joinErrors errs) }

/-- `createOrder` from mcp.ts (hardened dev-only-proxy variant): policy
gate, then schema validation, then the Backend Gateway POST. -/
def createOrder (cfg : Config) (env : Env) (payload : Json)
    (target : String) : ApiResponse × List GEvent :=
  if isProxyAllowed cfg target then
    match env.validateOrder payload with
    | [] =>
        let url := getApiBase cfg target ++ "/v1/orders"
        (makeRequest (env.net "POST" url (some payload)),
         [.validate "order.create", .gateway "POST" url (some payload)])
    | e :: es =>
        (validationFailure (e :: es), [.validate "order.create"])
  else
    (proxyRefusal target, [])

/-- `createSubscription` from mcp.ts (hardened variant). -/
def createSubscription (cfg : Config) (env : Env) (payload : Json)
    (target : String) : ApiResponse × List GEvent :=
  if isProxyAllowed cfg target then
    match env.validateSubscribe payload with
    | [] =>
        let url := getApiBase cfg target ++ "/v1/subscribe"
        (makeRequest (env.net "POST" url (some payload)),
         [.validate "subscribe.create", .gateway "POST" url (some payload)])
    | e :: es =>
        (validationFailure (e :: es), [.validate "subscribe.create"])
  else
    (proxyRefusal target, [])

/-- Result shape of `healthCheck` (the `target` field is echoed; the
`error` field is spread in only when truthy, so an empty error string is
dropped). -/
structure HealthResult where
  ok : Bool
  status : Option Nat
  target : String
  error : Option String

/-- `healthCheck` from mcp.ts: resolves the base for the requested target
and performs the GET unconditionally — there is no policy check here. -/
def healthCheck (cfg : Config) (env : Env) (target : String) :
    HealthResult × List GEvent :=
  let url := getApiBase cfg target ++ "/healthz"
  let r := makeRequest (env.net "GET" url none)
  ({ ok := r.ok
     status := some r.status
     target := target
     error := match r.error with
       | some e => if e = "" then none else some e
       | none => none },
   [.gateway "GET" url none])

/-- `readOpenAPI` from mcp.ts: returns the contract text or throws. -/
def readOpenAPI (env : Env) : Except String String :=
  match env.openapi with
  | some s => .ok s
  | none => .error "Failed to read OpenAPI contract: Unknown error"

/-- `readSchema` from mcp.ts: `schemaMap` lookup; an unknown name throws. -/
def readSchema (env : Env) (name : String) : Except String Json :=
  if name = "order.create" then .ok env.orderSchema
  else if name = "subscribe.create" then .ok env.subscribeSchema
  else .error ("Schema \x27" ++ name ++
    "\x27 not found. Available schemas: order.create, subscribe.create")

/-- `getApiBaseUrl` from mcp.ts. -/
def getApiBaseUrl (cfg : Config) (target : String) : Json :=
  .obj [("base", .str (getApiBase cfg target)), ("target", .str target)]

/-! ### server.ts: JSON-RPC envelope, dispatch and transport loop -/

/-- A JSON-RPC correlation id (string or number). -/
inductive RpcId where
  | s (v : String)
  | n (v : Int)
  deriving DecidableEq

/-- An incoming JSON-RPC request (the `jsonrpc: '2.0'` tag is constant and
omitted).  `params` is `Json.null` when absent. -/
structure JsonRpcRequest where
  id : RpcId
  method : String
  params : Json

/-- A JSON-RPC error object. -/
structure RpcError where
  code : Int
  message : String
  data : Option Json

/-- An outgoing JSON-RPC response: the echoed id and result or error. -/
structure JsonRpcResponse where
  id : RpcId
  result : Option Json
  error : Option RpcError

/-- Minimal escaping for string serialization (display only). -/
def jescape (s : String) : String :=
  ⟨s.data.foldr
    (fun c acc =>
      if c = '"' then '\\' :: '"' :: acc
      else if c = '\\' then '\\' :: '\\' :: acc
      else c :: acc) []⟩

mutual
/-- `JSON.stringify` of a runtime value (indentation of the source's
`JSON.stringify(result, null, 2)` is omitted; no claim reads this text). -/
def jserialize : Json → String
  | .null => "null"
  | .bool true => "true"
  | .bool false => "false"
  | .num n => toString n
  | .str s => "\"" ++ jescape s ++ "\""
  | .arr xs => "[" ++ jserializeList xs ++ "]"
  | .obj kvs => "\x7b" ++ jserializeObj kvs ++ "\x7d"

def jserializeList : List Json → String
  | [] => ""
  | [x] => jserialize x
  | x :: y :: xs => jserialize x ++ "," ++ jserializeList (y :: xs)

def jserializeObj : List (String × Json) → String
  | [] => ""
  | [(k, v)] => "\"" ++ jescape k ++ "\":" ++ jserialize v
  | (k, v) :: kv :: kvs =>
      "\"" ++ jescape k ++ "\":" ++ jserialize v ++ ","
        ++ jserializeObj (kv :: kvs)
end

/-- JSON shape of an `ApiResponse` tool result (the `error` field is
present only when set, as in the source object literals). -/
def apiToJson (r : ApiResponse) : Json :=
  .obj ([("status", .num r.status), ("body", r.body), ("ok", .bool r.ok)]
    ++ (match r.error with | some e => [("error", .str e)] | none => []))

/-- JSON shape of a `healthCheck` tool result. -/
def healthToJson (h : HealthResult) : Json :=
  .obj ([("ok", .bool h.ok)]
    ++ (match h.status with | some s => [("status", .num s)] | none => [])
    ++ [("target", .str h.target)]
    ++ (match h.error with | some e => [("error", .str e)] | none => []))

/-- The runtime string a JS value cast `as ApiTarget` contributes to
`target === 'dev'` comparisons (non-strings are never equal to `'dev'`,
and `jdisp` of a non-"dev" string is never "dev"-equal in the claims,
which only exercise string targets). -/
def jsTargetString (j : Json) : String :=
  match j with
  | .str s => s
  | other => jdisp other

/-- `inputSchema` helper: an object schema with the given properties and
required names. -/
def schemaObj (props : List (String × Json)) (required : List String) : Json :=
  .obj [("type", .str "object"), ("properties", .obj props),
        ("required", .arr (required.map .str))]

/-- The enum-of-targets property schema used throughout `toolDefinitions`. -/
def targetProp (desc : String) : Json :=
  .obj [("type", .str "string"),
        ("enum", .arr [.str "dev", .str "prod"]),
        ("description", .str desc)]

/-- `toolDefinitions` from mcp.ts (name, description, inputSchema). -/
def toolDefinitions : List (String × String × Json) :=
  [("contracts_read_openapi", "Read the OpenAPI contract specification",
    schemaObj [] []),
   ("contracts_read_schema", "Read a JSON schema by name",
    schemaObj
      [("name", .obj [("type", .str "string"),
        ("enum", .arr [.str "order.create", .str "subscribe.create"]),
        ("description", .str "Schema name to retrieve")])]
      ["name"]),
   ("env_get_api_base", "Get API base URL for target environment",
    schemaObj
      [("target", targetProp "Target environment (dev=emulator, prod=production)")]
      ["target"]),
   ("api_orders_create", "Create a new order with validation (dev-only proxy)",
    schemaObj
      [("payload", .obj [("type", .str "object"),
        ("description", .str "Order data to create (matches OpenAPI schema)")]),
       ("target", targetProp "Target environment (prod calls will be blocked)")]
      ["payload", "target"]),
   ("api_subscribe_create",
    "Create a new subscription with validation (dev-only proxy)",
    schemaObj
      [("payload", .obj [("type", .str "object"),
        ("description", .str "Subscription data to create (matches OpenAPI schema)")]),
       ("target", targetProp "Target environment (prod calls will be blocked)")]
      ["payload", "target"]),
   ("healthz", "Check API health status for target environment",
    schemaObj
      [("target", targetProp "Target environment to check")]
      ["target"])]

/-- The `tools/list` result object. -/
def toolsListJson : Json :=
  .obj [("tools", .arr (toolDefinitions.map (fun t =>
    .obj [("name", .str t.1), ("description", .str t.2.1),
          ("inputSchema", t.2.2)])))]

/-- `callTool` from server.ts: dispatch by (dotted) tool name; structural
argument checks throw; the chosen handler runs.  The thrown message is the
`.error` value; handler side effects are the second component. -/
def callTool (cfg : Config) (env : Env) (name : Option Json)
    (args : Option Json) : Except String Json × List GEvent :=
  match name with
  | some (.str "contracts.readOpenAPI") =>
      ((readOpenAPI env).map .str, [])
  | some (.str "contracts.readSchema") =>
      let schemaName := jgetOpt args "name"
      if jsTruthy schemaName then
        match schemaName with
        | some (.str s) => (readSchema env s, [])
        | some j => (.error ("Schema \x27" ++ jdisp j ++
            "\x27 not found. Available schemas: order.create, subscribe.create"),
            [])
        | none => (.error "Schema name is required", [])
      else (.error "Schema name is required", [])
  | some (.str "env.getApiBase") =>
      let target := jgetOpt args "target"
      if jsTruthy target then
        match target with
        | some j => (.ok (getApiBaseUrl cfg (jsTargetString j)), [])
        | none => (.error "Target environment is required", [])
      else (.error "Target environment is required", [])
  | some (.str "api.orders.create") =>
      let payload := jgetOpt args "payload"
      let target := jgetOpt args "target"
      if jsTruthy payload && jsTruthy target then
        match payload, target with
        | some p, some t =>
            let r := createOrder cfg env p (jsTargetString t)
            (.ok (apiToJson r.1), r.2)
        | _, _ => (.error "Payload and target are required", [])
      else (.error "Payload and target are required", [])
  | some (.str "api.subscribe.create") =>
      let payload := jgetOpt args "payload"
      let target := jgetOpt args "target"
      if jsTruthy payload && jsTruthy target then
        match payload, target with
        | some p, some t =>
            let r := createSubscription cfg env p (jsTargetString t)
            (.ok (apiToJson r.1), r.2)
        | _, _ => (.error "Payload and target are required", [])
      else (.error "Payload and target are required", [])
  | some (.str "healthz") =>
      let target := jgetOpt args "target"
      if jsTruthy target then
        match target with
        | some t =>
            let r := healthCheck cfg env (jsTargetString t)
            (.ok (healthToJson r.1), r.2)
        | none => (.error "Target environment is required", [])
      else (.error "Target environment is required", [])
  | some j => (.error ("Unknown tool: " ++ jdisp j), [])
  | none => (.error "Unknown tool: undefined", [])

/-- The `tools/call` result wrapper
`{ content: [ { type: 'text', text } ] }`, where a string result is used
raw and any other value is serialized. -/
def wrapToolResult (j : Json) : Json :=
  .obj [("content", .arr [ .obj
    [("type", .str "text"),
     ("text", .str (match j with | .str s => s | other => jserialize other))]])]

/-- The `initialize` result object. -/
def initializeResult : Json :=
  .obj [("protocolVersion", .str "2024-11-05"),
        ("capabilities", .obj [("tools", .obj [])]),
        ("serverInfo", .obj [("name", .str "roze-mcp"),
                             ("version", .str "1.0.0")])]

/-- A success response (error absent). -/
def rpcOk (i : RpcId) (j : Json) : JsonRpcResponse :=
  { id := i, result := some j, error := none }

/-- An error response (result absent). -/
def rpcErr (i : RpcId) (code : Int) (message : String) (data : Option Json) :
    JsonRpcResponse :=
  { id := i, result := none,
    error := some { code := code, message := message, data := data } }

/-- `handleRequest` from server.ts.  Every branch produces a response that
echoes the request id; any fault thrown during dispatch (including every
`callTool` throw and the destructuring TypeError when `params` is
null/undefined) is caught and converted to an `Internal error` response
with the fault message as `data`.  (The concrete TypeError text is
engine-dependent; a representative constant is used.) -/
def handleRequest (cfg : Config) (env : Env) (req : JsonRpcRequest) :
    JsonRpcResponse × List GEvent :=
  match req.method with
  | "tools/list" => (rpcOk req.id toolsListJson, [])
  | "tools/call" =>
      match req.params with
      | .null =>
          (rpcErr req.id (-32603) "Internal error"
            (some (.str "Cannot destructure request.params")), [])
      | ps =>
          let name := jgetOpt (some ps) "name"
          let args := jgetOpt (some ps) "arguments"
          match callTool cfg env name args with
          | (.ok j, evs) => (rpcOk req.id (wrapToolResult j), evs)
          | (.error msg, evs) =>
              (rpcErr req.id (-32603) "Internal error" (some (.str msg)), evs)
  | "initialize" => (rpcOk req.id initializeResult, [])
  | other =>
      (rpcErr req.id (-32601) ("Method not found: " ++ other) none, [])

/-- One input line, after the `JSON.parse` attempt of the line handler. -/
inductive LineIn where
  | parsed (req : JsonRpcRequest)
  | malformed

/-- Messages the process emits for one line: at most one stdout response,
plus stderr log entries. -/
inductive OutMsg where
  | response (r : JsonRpcResponse)
  | log (entry : String)

/-- The `line` event handler of `setupHandlers`: a parsed request is
dispatched and answered with exactly one response; an unparseable line is
only logged. -/
def handleLine (cfg : Config) (env : Env) (li : LineIn) : List OutMsg :=
  match li with
  | .parsed req => [.response (handleRequest cfg env req).1]
  | .malformed => [.log "Failed to parse request"]

/-- The stdout responses among the emitted messages. -/
def responsesOf (ms : List OutMsg) : List JsonRpcResponse :=
  ms.filterMap (fun m => match m with
    | .response r => some r
    | .log _ => none)

/-! ### Redaction cleanliness predicates (for the `sanitizeError` claims) -/

/-- The three redaction stars. -/
def stars : List Char := ['*', '*', '*']

/-- A match result is clean when its value part is exactly `***`. -/
def cleanO (o : Option (List Char × List Char)) : Prop :=
  ∀ v r, o = some (v, r) → v = stars

/-- A text is clean for one secret pattern when every occurrence of the
pattern in it (at any position, i.e. at any suffix) has value `***`. -/
def CleanL (p : List PComp) (t : List Char) : Prop :=
  ∀ u, u <:+ t → cleanO (runMV p u)

/-- A text leaks no secret: it is clean for all four patterns of
`sanitizeError`. -/
def NoLeak (t : List Char) : Prop :=
  CleanL apiC t ∧ CleanL tokenC t ∧ CleanL secretC t ∧ CleanL passwordC t

/-- The possible error field of an `ApiResponse` never leaks a secret. -/
def errFieldClean (r : ApiResponse) : Prop :=
  ∀ e, r.error = some e → NoLeak e.data

/-- Pattern-machine states are the suffixes of the four patterns. -/
def WFState (cs : List PComp) : Prop :=
  cs <:+ apiC ∨ cs <:+ tokenC ∨ cs <:+ secretC ∨ cs <:+ passwordC

/-- The list starts with a non-value character (or is empty): the shape of
the remainder after a maximal value run. -/
def headNonVal : List Char → Prop
  | [] => True
  | c :: _ => isVal c = false

/-- Checks that pattern `cs` definitely fails on `s ++ X` for every
continuation `X`: a conservative (sound, not complete) decision used to
discharge the finitely many cases where a pattern is attempted inside a
replacement block. -/
def failFast : List PComp → List Char → Bool
  | [], _ => true
  | .lit _ :: _, [] => false
  | .lit k :: ps, c :: s => if lowEq c k then failFast ps s else true
  | .opt _ :: _, [] => false
  | .opt ks :: ps, c :: s =>
      if ks.any (lowEq c) then failFast ps s else failFast ps (c :: s)
  | .sep :: _, [] => false
  | .sep :: ps, c :: s => if sepC c then failFast ps s else true
  | .val :: _, s =>
      match s.dropWhile isWS with
      | [] => false
      | c :: _ => !isVal c

/-- Componentwise well-formedness of a machine state: literals are
lowercase basic-latin letters and optional classes are the two classes of
the source regexes. -/
def compOK : PComp → Bool
  | .lit k => 97 ≤ k.toNat && k.toNat ≤ 122
  | .opt ks => ks = ['s'] || ks = ['_', '-']
  | .sep => true
  | .val => true

/-- Well-formed residual states: componentwise OK, with the value step
terminal.  Every suffix of the four patterns satisfies this. -/
def goodT : List PComp → Bool
  | [] => true
  | .val :: ps => ps.isEmpty
  | c :: ps => compOK c && goodT ps

/-- The exact residual shapes of the four source patterns: a (possibly
empty) chain of letter literals ending in one of the fixed tails. -/
def shapeOK : List PComp → Bool
  | [] => true
  | .val :: ps => ps.isEmpty
  | .sep :: ps => ps = [.val]
  | .opt ks :: ps =>
      (ks = ['s'] && ps = [.sep, .val])
      || (ks = ['_', '-']
          && ps = [.lit 'k', .lit 'e', .lit 'y', .opt ['s'], .sep, .val])
  | .lit k :: ps => (97 ≤ k.toNat && k.toNat ≤ 122) && shapeOK ps

/-- The list starts with a non-whitespace character (or is empty). -/
def headNonWS : List Char → Prop
  | [] => True
  | c :: _ => isWS c = false

/-- Decidable check of `CleanL` (used on concrete strings). -/
def cleanB (p : List PComp) (t : List Char) : Bool :=
  t.tails.all (fun u =>
    match runMV p u with
    | none => true
    | some (v, _) => v = stars)

/-! ### Concrete fixtures for witnesses and counterexamples -/

/-- A concrete dev-only configuration. -/
def cfgDemo : Config :=
  { apiBaseDev := "http://127.0.0.1:5001/demo/us-central1"
    apiBaseProd := "https://api.example.com"
    proxyMode := .devOnly
    logLevel := .info }

/-- A concrete network oracle: always a 200 response. -/
def netDemo : Net := fun _ _ _ => .response 200 .null

/-- A concrete validator outcome used to exhibit multi-error collection. -/
def twoErrs : List AjvErr :=
  [{ instancePath := "/customer/email", message := "must match format email" },
   { instancePath := "", message := "must have required property sku" }]

/-- A concrete environment whose order validator reports two violations
for the empty-object payload and accepts everything else. -/
def envDemo : Env :=
  { openapi := some "openapi: 3.0.3"
    orderSchema := .obj [("type", .str "object")]
    subscribeSchema := .obj [("type", .str "object")]
    validateOrder := fun p => match p with | .obj [] => twoErrs | _ => []
    validateSubscribe := fun p => match p with | .obj [] => twoErrs | _ => []
    net := netDemo }

/-! ## Claim theorems -/

/-- C5: `makeRequest` returns normally for every transport outcome, with
`ok = true` exactly when an HTTP response status lies in 200..299 (so every
4xx/5xx gives `ok = false`); every axios-level network/transport failure is
converted to `ok = false` with a (sanitized) error string, and every other
fault to the fixed unknown-error result — no fault propagates. -/
theorem C5_makeRequest_total_ok_iff :
    (∀ s d, (makeRequest (.response s d)).ok
        = (decide (200 ≤ s) && decide (s < 300))
      ∧ (makeRequest (.response s d)).error = none)
    ∧ (∀ rs m, (makeRequest (.axiosError rs m)).ok = false
      ∧ (makeRequest (.axiosError rs m)).error = some (sanitizeError m)
      ∧ (makeRequest (.axiosError rs m)).status = rs.getD 0)
    ∧ ((makeRequest .otherError).ok = false
      ∧ (makeRequest .otherError).error = some "Unknown network error") :=
  ⟨fun _ _ => ⟨rfl, rfl⟩, fun _ _ => ⟨rfl, rfl, rfl⟩, rfl, rfl⟩

/-- C3 (counterexample): the claim asserts the full error table for all
three callable operations, but `callHealthz` maps `permission-denied` to
500, not to the 403 the table demands. -/
theorem C3_healthz_permission_denied_counterexample :
    (callHealthz (.err (some "permission-denied") (some "denied"))).status
      = some 500 ∧ (500 : Nat) ≠ 403 :=
  ⟨rfl, by decide⟩

/-- C3 (amended): `callCreateOrder` and `callCreateSubscription` map a
thrown error by the full fixed table (unauthenticated→401,
permission-denied→403, invalid-argument→400, else→500), all with
`ok = false`; `callHealthz` maps only unauthenticated→401 and every other
classification — including permission-denied and invalid-argument — to
500. -/
theorem C3_amended_error_tables :
    (∀ code m, (callHealthz (.err code m)).ok = false
      ∧ (callHealthz (.err code m)).status
          = some (if code = some "unauthenticated" then 401 else 500))
    ∧ (∀ p code m, (callCreateOrder p (.err code m)).ok = false
      ∧ (callCreateOrder p (.err code m)).status = some (fbStatusTable code))
    ∧ (∀ p code m, (callCreateSubscription p (.err code m)).ok = false
      ∧ (callCreateSubscription p (.err code m)).status
          = some (fbStatusTable code)) :=
  ⟨fun _ _ => ⟨rfl, rfl⟩, fun _ _ _ => ⟨rfl, rfl⟩, fun _ _ _ => ⟨rfl, rfl⟩⟩

/-- C2: for every disallowed target under dev-only policy, `createOrder`
and `createSubscription` return the structured 403 refusal (error text,
echoed target, `proxyMode: 'dev-only'`) with no validation event and no
Backend Gateway invocation. -/
theorem C2_policy_refusal_before_validation (cfg : Config) (env : Env)
    (payload : Json) (target : String)
    (hmode : cfg.proxyMode = .devOnly)
    (hdeny : isProxyAllowed cfg target = false) :
    createOrder cfg env payload target = (proxyRefusal target, [])
    ∧ createSubscription cfg env payload target = (proxyRefusal target, []) := by
  constructor <;> simp [createOrder, createSubscription, hdeny]

/-- C2 witness: the dev-only demo configuration refuses target `prod` in
both handlers. -/
theorem C2_policy_refusal_witness :
    createOrder cfgDemo envDemo (.obj [("sku", .str "x")]) "prod"
      = (proxyRefusal "prod", [])
    ∧ createSubscription cfgDemo envDemo (.obj [("sku", .str "x")]) "prod"
      = (proxyRefusal "prod", []) :=
  C2_policy_refusal_before_validation cfgDemo envDemo
    (.obj [("sku", .str "x")]) "prod" rfl rfl

/-- C10: any target string other than `dev` — including undeclared values
such as `staging` — resolves to the production base; under dev-only policy
`isProxyAllowed` rejects it, yet `healthCheck` performs its gateway GET
against the resolved production `/healthz` endpoint with no policy check. -/
theorem C10_undeclared_target_hits_prod (cfg : Config) (t : String)
    (ht : t ≠ "dev") :
    getApiBase cfg t = cfg.apiBaseProd
    ∧ (cfg.proxyMode = .devOnly → isProxyAllowed cfg t = false)
    ∧ ∀ env : Env, (healthCheck cfg env t).2
        = [.gateway "GET" (cfg.apiBaseProd ++ "/healthz") none] := by
  refine ⟨?_, ?_, ?_⟩
  · simp [getApiBase, ht]
  · intro hmode
    simp [isProxyAllowed, hmode, ht]
  · intro env
    simp [healthCheck, getApiBase, ht]

/-- C10 witness: the undeclared target `staging` against the demo
configuration is rejected by the policy but health-checked against the
production base. -/
theorem C10_undeclared_target_witness :
    getApiBase cfgDemo "staging" = cfgDemo.apiBaseProd
    ∧ (cfgDemo.proxyMode = .devOnly → isProxyAllowed cfgDemo "staging" = false)
    ∧ ∀ env : Env, (healthCheck cfgDemo env "staging").2
        = [.gateway "GET" (cfgDemo.apiBaseProd ++ "/healthz") none] :=
  C10_undeclared_target_hits_prod cfgDemo "staging" (by decide)

/-- C1 (counterexample): the claim says no tool handler ever reaches the
Backend Gateway for a policy-disallowed target, for every tool including
healthz; but `healthCheck` performs a gateway GET for the disallowed
target `prod` under the dev-only demo configuration. -/
theorem C1_healthz_reaches_gateway_counterexample :
    isProxyAllowed cfgDemo "prod" = false
    ∧ (healthCheck cfgDemo envDemo "prod").2
        = [.gateway "GET" "https://api.example.com/healthz" none]
    ∧ (healthCheck cfgDemo envDemo "prod").2 ≠ [] := by
  refine ⟨rfl, rfl, ?_⟩
  simp [healthCheck]

/-- C1 (amended): for every policy-disallowed target, `createOrder` and
`createSubscription` perform no event at all (in particular no Backend
Gateway invocation, whatever the supplied arguments); `healthCheck`,
however, performs its gateway GET for every target without consulting the
policy. -/
theorem C1_amended_gateway_reachability (cfg : Config) (env : Env)
    (payload : Json) (target : String)
    (hdeny : isProxyAllowed cfg target = false) :
    (createOrder cfg env payload target).2 = []
    ∧ (createSubscription cfg env payload target).2 = []
    ∧ ∀ t' : String, (healthCheck cfg env t').2
        = [.gateway "GET" (getApiBase cfg t' ++ "/healthz") none] := by
  refine ⟨?_, ?_, fun t' => rfl⟩ <;>
    simp [createOrder, createSubscription, hdeny]

/-- C1 witness: concrete instance of the amended statement at target
`prod` under the dev-only demo configuration. -/
theorem C1_amended_witness :
    (createOrder cfgDemo envDemo (.obj []) "prod").2 = []
    ∧ (createSubscription cfgDemo envDemo (.obj []) "prod").2 = []
    ∧ ∀ t' : String, (healthCheck cfgDemo envDemo t').2
        = [.gateway "GET" (getApiBase cfgDemo t' ++ "/healthz") none] :=
  C1_amended_gateway_reachability cfgDemo envDemo (.obj []) "prod" rfl

/-- Helper: every element of a joined list occurs in the joined string. -/
theorem joinStrs_infix (sep : String) :
    ∀ (xs : List String) (x : String), x ∈ xs →
      x.data <:+: (joinStrs sep xs).data := by
  intro xs
  induction xs with
  | nil => intro x hx; cases hx
  | cons x0 rest ih =>
    intro x hx
    cases rest with
    | nil =>
      rcases List.mem_singleton.mp hx with rfl
      exact List.infix_rfl
    | cons y ys =>
      rcases List.mem_cons.mp hx with rfl | hmem
      · refine ⟨[], (sep.data ++ (joinStrs sep (y :: ys)).data), ?_⟩
        simp [joinStrs, String.data_append]
      · obtain ⟨s, t, hst⟩ := ih x hmem
        refine ⟨(x0 ++ sep).data ++ s, t, ?_⟩
        simp only [joinStrs, String.data_append, List.append_assoc]
        rw [← hst]
        simp [String.data_append]

/-- C4: whenever the (allErrors) validator reports a non-empty violation
list, `createOrder` / `createSubscription` return the 400 result whose
`details` string joins one `path: message` entry for every violation (not
only the first), and the only event performed is the validation — the
Backend Gateway is never invoked. -/
theorem C4_validation_collects_all_errors (cfg : Config) (env : Env)
    (payload : Json) (target : String)
    (hallow : isProxyAllowed cfg target = true) :
    (∀ e es, env.validateOrder payload = e :: es →
      createOrder cfg env payload target
        = (validationFailure (e :: es), [.validate "order.create"])
      ∧ ∀ err ∈ e :: es, (fmtErr err).data <:+: (joinErrors (e :: es)).data)
    ∧ (∀ e es, env.validateSubscribe payload = e :: es →
      createSubscription cfg env payload target
        = (validationFailure (e :: es), [.validate "subscribe.create"])
      ∧ ∀ err ∈ e :: es, (fmtErr err).data <:+: (joinErrors (e :: es)).data) := by
  constructor
  all_goals
    intro e es hval
    constructor
    · simp [createOrder, createSubscription, hallow, hval]
    · intro err hmem
      exact joinStrs_infix "; " ((e :: es).map fmtErr) (fmtErr err)
        (List.mem_map_of_mem fmtErr hmem)

/-- C4 witness: the demo order validator reports two violations for the
empty payload; both formatted pairs occur in the returned details. -/
theorem C4_validation_witness :
    createOrder cfgDemo envDemo (.obj []) "dev"
      = (validationFailure twoErrs, [.validate "order.create"])
    ∧ ∀ err ∈ twoErrs, (fmtErr err).data <:+: (joinErrors twoErrs).data :=
  (C4_validation_collects_all_errors cfgDemo envDemo (.obj []) "dev" rfl).1
    { instancePath := "/customer/email", message := "must match format email" }
    [{ instancePath := "", message := "must have required property sku" }]
    rfl

/-- C7: every parsed request line produces exactly one response, and that
response carries the id of the request; an unparseable line produces no
response at all (only a log entry). -/
theorem C7_one_response_per_line (cfg : Config) (env : Env) :
    (∀ req, responsesOf (handleLine cfg env (.parsed req))
        = [(handleRequest cfg env req).1]
      ∧ (handleRequest cfg env req).1.id = req.id)
    ∧ responsesOf (handleLine cfg env .malformed) = [] := by
  refine ⟨fun req => ⟨rfl, ?_⟩, rfl⟩
  rcases req with ⟨i, m, ps⟩
  simp only [handleRequest]
  repeat' split
  all_goals simp [rpcOk, rpcErr]

/-- C8: every fault thrown by `callTool` while handling a `tools/call`
request is caught by `handleRequest` and converted into a JSON-RPC error
response that carries the request id, code -32603 with the generic message
`Internal error`, and the fault message as the diagnostic `data` field;
`handleRequest` is total, so the fault never escapes as an exception. -/
theorem C8_dispatch_fault_becomes_internal_error (cfg : Config) (env : Env)
    (req : JsonRpcRequest) (msg : String) (evs : List GEvent)
    (hm : req.method = "tools/call") (hp : req.params ≠ .null)
    (hc : callTool cfg env (jgetOpt (some req.params) "name")
            (jgetOpt (some req.params) "arguments") = (.error msg, evs)) :
    (handleRequest cfg env req).1
      = rpcErr req.id (-32603) "Internal error" (some (.str msg)) := by
  rcases req with ⟨i, m, ps⟩
  simp only at hm hp hc
  subst hm
  cases ps with
  | null => exact absurd rfl hp
  | bool b => simp [handleRequest, hc]
  | num n => simp [handleRequest, hc]
  | str s => simp [handleRequest, hc]
  | arr xs => simp [handleRequest, hc]
  | obj kvs => simp [handleRequest, hc]

/-- C8 witness: an unknown tool name makes `callTool` throw, and the
response is the internal-error envelope with the fault as data. -/
theorem C8_dispatch_fault_witness :
    (handleRequest cfgDemo envDemo
        ⟨.n 1, "tools/call", .obj [("name", .str "nope")]⟩).1
      = rpcErr (.n 1) (-32603) "Internal error"
          (some (.str "Unknown tool: nope")) :=
  C8_dispatch_fault_becomes_internal_error cfgDemo envDemo
    ⟨.n 1, "tools/call", .obj [("name", .str "nope")]⟩
    "Unknown tool: nope" [] rfl (by simp) (by simp [callTool, jgetOpt, jlookup, jdisp])

/-- C9 (counterexample): a `tools/call` of `healthz` that omits the
required `target` argument is answered with a JSON-RPC-level *error*
object (code -32603, `Internal error`, the handler's message as data) and
no result — not with the ordinary tool-result delivery the claim
asserts. -/
theorem C9_missing_argument_counterexample :
    (handleRequest cfgDemo envDemo
        ⟨.n 7, "tools/call",
         .obj [("name", .str "healthz"), ("arguments", .obj [])]⟩).1.result
      = none
    ∧ (handleRequest cfgDemo envDemo
        ⟨.n 7, "tools/call",
         .obj [("name", .str "healthz"), ("arguments", .obj [])]⟩).1.error
      = some { code := -32603, message := "Internal error",
               data := some (.str "Target environment is required") } := by
  constructor <;>
    simp [handleRequest, callTool, jgetOpt, jlookup, jsTruthy, rpcErr]

/-- C9 (amended): a `tools/call` of a registered validating tool that
omits (or passes a falsy value for) a required argument is answered as a
JSON-RPC-level error response — code -32603, message `Internal error` —
whose `data` field carries the handler's thrown message naming the missing
requirement (`Target environment is required`, `Payload and target are
required`, `Schema name is required`); no ordinary tool-result is
delivered. -/
theorem C9_amended_missing_argument_responses (cfg : Config) (env : Env)
    (i : RpcId) (args : Json) :
    (jsTruthy (jgetOpt (some args) "target") = false →
      (handleRequest cfg env ⟨i, "tools/call",
        .obj [("name", .str "healthz"), ("arguments", args)]⟩).1
      = rpcErr i (-32603) "Internal error"
          (some (.str "Target environment is required")))
    ∧ (jsTruthy (jgetOpt (some args) "payload") = false
        ∨ jsTruthy (jgetOpt (some args) "target") = false →
      (handleRequest cfg env ⟨i, "tools/call",
        .obj [("name", .str "api.orders.create"), ("arguments", args)]⟩).1
      = rpcErr i (-32603) "Internal error"
          (some (.str "Payload and target are required")))
    ∧ (jsTruthy (jgetOpt (some args) "payload") = false
        ∨ jsTruthy (jgetOpt (some args) "target") = false →
      (handleRequest cfg env ⟨i, "tools/call",
        .obj [("name", .str "api.subscribe.create"), ("arguments", args)]⟩).1
      = rpcErr i (-32603) "Internal error"
          (some (.str "Payload and target are required")))
    ∧ (jsTruthy (jgetOpt (some args) "name") = false →
      (handleRequest cfg env ⟨i, "tools/call",
        .obj [("name", .str "contracts.readSchema"), ("arguments", args)]⟩).1
      = rpcErr i (-32603) "Internal error"
          (some (.str "Schema name is required")))
    ∧ (jsTruthy (jgetOpt (some args) "target") = false →
      (handleRequest cfg env ⟨i, "tools/call",
        .obj [("name", .str "env.getApiBase"), ("arguments", args)]⟩).1
      = rpcErr i (-32603) "Internal error"
          (some (.str "Target environment is required"))) := by
  refine ⟨?_, ?_, ?_, ?_, ?_⟩
  · intro h
    simp only [jgetOpt] at h
    simp [handleRequest, callTool, jgetOpt, jlookup, h]
  · rintro (h | h) <;> simp only [jgetOpt] at h <;>
      simp [handleRequest, callTool, jgetOpt, jlookup, h]
  · rintro (h | h) <;> simp only [jgetOpt] at h <;>
      simp [handleRequest, callTool, jgetOpt, jlookup, h]
  · intro h
    simp only [jgetOpt] at h
    simp [handleRequest, callTool, jgetOpt, jlookup, h]
  · intro h
    simp only [jgetOpt] at h
    simp [handleRequest, callTool, jgetOpt, jlookup, h]

/-- C9 witness: an empty `arguments` object omits every required field;
all five instantiated responses are the internal-error envelope with the
handler's message as data. -/
theorem C9_amended_witness :
    (handleRequest cfgDemo envDemo ⟨.n 3, "tools/call",
        .obj [("name", .str "healthz"), ("arguments", .obj [])]⟩).1
      = rpcErr (.n 3) (-32603) "Internal error"
          (some (.str "Target environment is required"))
    ∧ (handleRequest cfgDemo envDemo ⟨.n 3, "tools/call",
        .obj [("name", .str "api.orders.create"), ("arguments", .obj [])]⟩).1
      = rpcErr (.n 3) (-32603) "Internal error"
          (some (.str "Payload and target are required")) := by
  have h := C9_amended_missing_argument_responses cfgDemo envDemo (.n 3) (.obj [])
  exact ⟨h.1 rfl, h.2.1 (Or.inl rfl)⟩

/-! ### Redaction correctness: helper lemmas -/

theorem runMV_nil (cs : List PComp) : runMV cs [] = none := by
  induction cs with
  | nil => rfl
  | cons c ps ih =>
    cases c with
    | lit k => rfl
    | opt ks => simpa [runMV] using ih
    | sep => rfl
    | val => simp [runMV]

theorem headNonVal_dropWhile (l : List Char) :
    headNonVal (l.dropWhile isVal) := by
  induction l with
  | nil => trivial
  | cons c t ih =>
    by_cases hc : isVal c
    · simpa [List.dropWhile_cons, hc] using ih
    · simp [List.dropWhile_cons, hc, headNonVal]

theorem runMV_rest_nonval {cs : List PComp} {l v r : List Char}
    (h : runMV cs l = some (v, r)) : headNonVal r := by
  induction cs generalizing l with
  | nil => simp [runMV] at h
  | cons p ps ih =>
    cases p with
    | lit k =>
      cases l with
      | nil => simp [runMV] at h
      | cons c t =>
        simp only [runMV] at h
        split at h
        · exact ih h
        · simp at h
    | opt ks =>
      cases l with
      | nil =>
        simp only [runMV] at h
        exact ih h
      | cons c t =>
        simp only [runMV] at h
        split at h
        · exact ih h
        · exact ih h
    | sep =>
      cases l with
      | nil => simp [runMV] at h
      | cons c t =>
        simp only [runMV] at h
        split at h
        · exact ih h
        · simp at h
    | val =>
      simp only [runMV] at h
      split at h
      · simp at h
      · have hp : (l.dropWhile isWS).takeWhile isVal = v
            ∧ (l.dropWhile isWS).dropWhile isVal = r := by simpa using h
        rw [← hp.2]
        exact headNonVal_dropWhile _

theorem runMV_rest_suffix {cs : List PComp} {l v r : List Char}
    (h : runMV cs l = some (v, r)) : r <:+ l := by
  induction cs generalizing l with
  | nil => simp [runMV] at h
  | cons p ps ih =>
    cases p with
    | lit k =>
      cases l with
      | nil => simp [runMV] at h
      | cons c t =>
        simp only [runMV] at h
        split at h
        · exact (ih h).trans (List.suffix_cons c t)
        · simp at h
    | opt ks =>
      cases l with
      | nil =>
        simp only [runMV] at h
        exact ih h
      | cons c t =>
        simp only [runMV] at h
        split at h
        · exact (ih h).trans (List.suffix_cons c t)
        · exact ih h
    | sep =>
      cases l with
      | nil => simp [runMV] at h
      | cons c t =>
        simp only [runMV] at h
        split at h
        · exact (ih h).trans (List.suffix_cons c t)
        · simp at h
    | val =>
      simp only [runMV] at h
      split at h
      · simp at h
      · have hp : (l.dropWhile isWS).takeWhile isVal = v
            ∧ (l.dropWhile isWS).dropWhile isVal = r := by simpa using h
        rw [← hp.2]
        exact (List.dropWhile_suffix isVal).trans (List.dropWhile_suffix isWS)

theorem toLower_of_ge97 {k : Char} (hk : 97 ≤ k.toNat) : k.toLower = k := by
  unfold Char.toLower
  rw [if_neg]
  omega

theorem toLower_lt65 {c : Char} (hc : c.toNat < 65) : c.toLower = c := by
  unfold Char.toLower
  rw [if_neg]
  omega

theorem lowEq_congr {h k : Char} (he : h.toLower = k.toLower) (x : Char) :
    lowEq h x = lowEq k x := by
  simp [lowEq, he]

theorem isWS_toLower_self {c : Char} (hc : isWS c = true) : c.toLower = c := by
  apply toLower_lt65
  simp [isWS] at hc
  rcases hc with ((((rfl | rfl) | rfl) | rfl) | rfl) | rfl <;> decide

theorem lowEq_letter_elim {h k : Char} (h1 : 97 ≤ k.toNat)
    (he : lowEq h k = true) : h.toLower = k := by
  have hk : k.toLower = k := toLower_of_ge97 h1
  simpa [lowEq, hk] using he

theorem lowEq_small_letter {c k : Char} (h1 : 97 ≤ k.toNat)
    (hc : c.toLower = c) (hcn : c.toNat < 97) : lowEq c k = false := by
  have hk : k.toLower = k := toLower_of_ge97 h1
  simp only [lowEq, hc, hk]
  simp only [decide_eq_false_iff_not]
  rintro rfl
  omega

theorem lowEq_small_letter_ex (c : Char) {k : Char} (h1 : 97 ≤ k.toNat)
    (hc : c.toLower = c) (hcn : c.toNat < 97) : lowEq c k = false :=
  lowEq_small_letter h1 hc hcn

theorem letter_props {k : Char} (h1 : 97 ≤ k.toNat) (h2 : k.toNat ≤ 122) :
    isWS k = false ∧ k ≠ '&' ∧ k ≠ '*' ∧ sepC k = false ∧ k.toLower = k := by
  refine ⟨?_, ?_, ?_, ?_, toLower_of_ge97 h1⟩
  · by_contra hcon
    have hws : isWS k = true := by simpa using hcon
    simp [isWS] at hws
    rcases hws with ((((rfl | rfl) | rfl) | rfl) | rfl) | rfl <;>
      exact absurd h1 (by decide)
  · rintro rfl; exact absurd h1 (by decide)
  · rintro rfl; exact absurd h1 (by decide)
  · by_contra hcon
    have hs : sepC k = true := by simpa using hcon
    simp [sepC] at hs
    rcases hs with rfl | rfl <;> exact absurd h1 (by decide)

theorem head_facts {h k : Char} (hlow : h.toLower = k)
    (hkws : isWS k = false) (hkamp : k ≠ '&') (hkstar : k ≠ '*')
    (hksep : sepC k = false) :
    isWS h = false ∧ isVal h = true ∧ h ≠ '*' ∧ sepC h = false := by
  have hws : isWS h = false := by
    by_contra hcon
    have h1 : isWS h = true := by simpa using hcon
    have h2 : h.toLower = h := isWS_toLower_self h1
    rw [h2] at hlow
    rw [hlow] at h1
    rw [h1] at hkws
    simp at hkws
  have hamp : h ≠ '&' := by
    rintro rfl
    have hfix : ('&').toLower = '&' := by decide
    rw [hfix] at hlow
    exact hkamp hlow.symm
  have hstar : h ≠ '*' := by
    rintro rfl
    have hfix : ('*').toLower = '*' := by decide
    rw [hfix] at hlow
    exact hkstar hlow.symm
  have hsep : sepC h = false := by
    by_contra hcon
    have h1 : sepC h = true := by simpa using hcon
    simp [sepC] at h1
    rcases h1 with rfl | rfl
    · have hfix : ('=').toLower = '=' := by decide
      rw [hfix] at hlow
      rw [← hlow] at hksep
      simp [sepC] at hksep
    · have hfix : (':').toLower = ':' := by decide
      rw [hfix] at hlow
      rw [← hlow] at hksep
      simp [sepC] at hksep
  refine ⟨hws, ?_, hstar, hsep⟩
  simp [isVal, hws, hamp]

theorem cleanO_none : cleanO none := by
  intro v r h
  simp at h

theorem goodT_cons_val {ps : List PComp} (h : goodT (.val :: ps) = true) :
    ps = [] := by
  simpa [goodT] using h

theorem goodT_cons_lit {k : Char} {ps : List PComp}
    (h : goodT (.lit k :: ps) = true) :
    (97 ≤ k.toNat ∧ k.toNat ≤ 122) ∧ goodT ps = true := by
  simpa [goodT, compOK] using h

theorem goodT_cons_opt {ks : List Char} {ps : List PComp}
    (h : goodT (.opt ks :: ps) = true) :
    (ks = ['s'] ∨ ks = ['_', '-']) ∧ goodT ps = true := by
  simpa [goodT, compOK] using h

theorem goodT_cons_sep {ps : List PComp} (h : goodT (.sep :: ps) = true) :
    goodT ps = true := by
  simpa [goodT, compOK] using h

theorem dropWhile_isWS_star {l : List Char} :
    ('*' :: l).dropWhile isWS = '*' :: l := by
  rw [List.dropWhile_cons, if_neg (by decide)]

theorem stars_append_eq (X : List Char) :
    stars ++ X = '*' :: '*' :: '*' :: X := by
  simp [stars]

theorem takeWhile_stars {X : List Char} (hX : headNonVal X) :
    (stars ++ X).takeWhile isVal = stars
    ∧ (stars ++ X).dropWhile isVal = X := by
  rw [stars_append_eq]
  cases X with
  | nil => constructor <;> decide
  | cons c X' =>
    have hc : ¬ isVal c = true := by
      have : isVal c = false := hX
      simp [this]
    constructor
    · rw [List.takeWhile_cons, if_pos (by decide),
          List.takeWhile_cons, if_pos (by decide),
          List.takeWhile_cons, if_pos (by decide),
          List.takeWhile_cons, if_neg hc]
      rfl
    · rw [List.dropWhile_cons, if_pos (by decide),
          List.dropWhile_cons, if_pos (by decide),
          List.dropWhile_cons, if_pos (by decide),
          List.dropWhile_cons, if_neg hc]

/-- A star-headed redacted tail is clean for every well-formed state: no
state can consume a `*`, and the value step reads exactly `***`. -/
theorem stars_clean : ∀ (cs : List PComp) (X : List Char),
    goodT cs = true → headNonVal X → cleanO (runMV cs (stars ++ X)) := by
  intro cs
  induction cs with
  | nil =>
    intro X _ _ v r h
    simp [runMV] at h
  | cons p ps ih =>
    intro X hg hX
    cases p with
    | lit k =>
      have hk := (goodT_cons_lit hg).1
      have hne : lowEq '*' k = false :=
        lowEq_small_letter hk.1 (by decide) (by decide)
      intro v r h
      simp only [stars, List.cons_append, runMV, hne] at h
      simp at h
    | opt ks =>
      have hk := goodT_cons_opt hg
      have hstep : runMV (.opt ks :: ps) (stars ++ X)
          = runMV ps (stars ++ X) := by
        rw [stars_append_eq]
        rcases hk.1 with rfl | rfl <;>
          (simp only [runMV]; rw [if_neg (by decide)])
      rw [hstep]
      exact ih X hk.2 hX
    | sep =>
      intro v r h
      rw [stars_append_eq] at h
      simp only [runMV] at h
      rw [if_neg (by decide)] at h
      simp at h
    | val =>
      intro v r h
      have ht := takeWhile_stars hX
      have hd : (stars ++ X).dropWhile isWS = stars ++ X := by
        rw [stars_append_eq]
        exact dropWhile_isWS_star
      simp only [runMV] at h
      rw [hd, ht.1, ht.2] at h
      rw [if_neg (by decide)] at h
      have hp : stars = v ∧ X = r := by simpa using h
      exact hp.1.symm

theorem runMV_lit {k : Char} {ps : List PComp} {c : Char} {l : List Char} :
    runMV (.lit k :: ps) (c :: l)
      = if lowEq c k then runMV ps l else none := by
  simp [runMV]

theorem runMV_opt {ks : List Char} {ps : List PComp} {c : Char}
    {l : List Char} :
    runMV (.opt ks :: ps) (c :: l)
      = if ks.any (lowEq c) then runMV ps l else runMV ps (c :: l) := by
  simp [runMV]

theorem runMV_sep {ps : List PComp} {c : Char} {l : List Char} :
    runMV (.sep :: ps) (c :: l)
      = if sepC c then runMV ps l else none := by
  simp [runMV]

theorem runMV_val_cons {ps : List PComp} {c : Char} {l : List Char}
    (hws : isWS c = false) (hval : isVal c = true) :
    runMV (.val :: ps) (c :: l)
      = some (c :: l.takeWhile isVal, l.dropWhile isVal) := by
  have h1 : (c :: l).dropWhile isWS = c :: l := by
    rw [List.dropWhile_cons, if_neg (by simp [hws])]
  have h2 : (c :: l).takeWhile isVal = c :: l.takeWhile isVal := by
    rw [List.takeWhile_cons, if_pos hval]
  have h3 : (c :: l).dropWhile isVal = l.dropWhile isVal := by
    rw [List.dropWhile_cons, if_pos hval]
  simp only [runMV, h1, h2, h3]
  simp

theorem shapeOK_cons_val {ps : List PComp} (h : shapeOK (.val :: ps) = true) :
    ps = [] := by
  simpa [shapeOK] using h

theorem shapeOK_cons_sep {ps : List PComp} (h : shapeOK (.sep :: ps) = true) :
    ps = [.val] := by
  simpa [shapeOK] using h

theorem shapeOK_cons_opt {ks : List Char} {ps : List PComp}
    (h : shapeOK (.opt ks :: ps) = true) :
    (ks = ['s'] ∧ ps = [.sep, .val])
    ∨ (ks = ['_', '-']
        ∧ ps = [.lit 'k', .lit 'e', .lit 'y', .opt ['s'], .sep, .val]) := by
  simpa [shapeOK] using h

theorem shapeOK_cons_lit {k : Char} {ps : List PComp}
    (h : shapeOK (.lit k :: ps) = true) :
    (97 ≤ k.toNat ∧ k.toNat ≤ 122) ∧ shapeOK ps = true := by
  simpa [shapeOK] using h

theorem canonRender_val : canonRender [PComp.val] = stars := rfl

theorem canonRender_sepval :
    canonRender [PComp.sep, PComp.val] = '=' :: stars := rfl

theorem canonRender_opts {ps : List PComp} :
    canonRender (.opt ['s'] :: ps) = canonRender ps := by
  show (if (['s'] : List Char).contains '_' then ['_'] else [])
      ++ canonRender ps = canonRender ps
  rw [if_neg (by decide)]
  simp

theorem canonRender_optu {ps : List PComp} :
    canonRender (.opt ['_', '-'] :: ps) = '_' :: canonRender ps := by
  show (if (['_', '-'] : List Char).contains '_' then ['_'] else [])
      ++ canonRender ps = '_' :: canonRender ps
  rw [if_pos (by decide)]
  simp

theorem canonRender_lit {k : Char} {ps : List PComp} :
    canonRender (.lit k :: ps) = k :: canonRender ps := rfl

/-- If a value state reads a plain value character, the match succeeds
with a value that starts with that character; cleanliness then forces the
character to be a star. -/
theorem val_state_vacuous {ps : List PComp} {h0 : Char} {u' : List Char}
    (hws : isWS h0 = false) (hval : isVal h0 = true) (hstar : h0 ≠ '*')
    (hc : cleanO (runMV (.val :: ps) (h0 :: u'))) : False := by
  have hrun : runMV (.val :: ps) (h0 :: u')
      = some (h0 :: u'.takeWhile isVal, u'.dropWhile isVal) :=
    runMV_val_cons hws hval
  have hv := hc _ _ hrun
  apply hstar
  have : h0 :: u'.takeWhile isVal = '*' :: '*' :: '*' :: [] := hv
  injection this with h1 _

/-- Core transfer lemma: when a residual `csq` of one of the four source
patterns matches at the head of `u`, then for every well-formed observer
state `cs` that is head-clean on `u`, the state is also head-clean on the
canonical rendering of `csq` followed by any non-value-headed
continuation. -/
theorem inner_transfer :
    ∀ (n : Nat) (csq cs : List PComp) (u X : List Char),
      csq.length + cs.length ≤ n →
      shapeOK csq = true → goodT cs = true → headNonVal X →
      (runMV csq u).isSome = true →
      cleanO (runMV cs u) →
      cleanO (runMV cs (canonRender csq ++ X)) := by
  intro n
  induction n with
  | zero =>
    intro csq cs u X hlen hsq hg hX hq hc
    have hnil : csq = [] := List.eq_nil_of_length_eq_zero (by omega)
    subst hnil
    simp [runMV] at hq
  | succ n ih =>
    intro csq cs u X hlen hsq hg hX hq hc
    cases csq with
    | nil => simp [runMV] at hq
    | cons pq psq =>
      cases pq with
      | val =>
        have hps : psq = [] := shapeOK_cons_val hsq
        subst hps
        rw [canonRender_val]
        exact stars_clean cs X hg hX
      | sep =>
        have hps : psq = [.val] := shapeOK_cons_sep hsq
        subst hps
        cases u with
        | nil => rw [runMV_nil] at hq; simp at hq
        | cons s0 u' =>
          by_cases hs : sepC s0 = true
          · rw [canonRender_sepval]
            cases cs with
            | nil => intro v r h; simp [runMV] at h
            | cons pc ps =>
              cases pc with
              | lit k =>
                have hk := (goodT_cons_lit hg).1
                intro v r h
                rw [List.cons_append, runMV_lit, if_neg (by
                  simp [lowEq_small_letter_ex '=' hk.1 (by decide) (by decide)])] at h
                simp at h
              | sep =>
                rw [List.cons_append, runMV_sep, if_pos (by decide)]
                exact stars_clean ps X (goodT_cons_sep hg) hX
              | opt ks =>
                have hko := goodT_cons_opt hg
                have hnotout : ¬ (ks.any (lowEq '=') = true) := by
                  rcases hko.1 with rfl | rfl <;> decide
                have hnotorig : ¬ (ks.any (lowEq s0) = true) := by
                  simp only [sepC] at hs
                  rcases (by simpa using hs : s0 = '=' ∨ s0 = ':') with rfl | rfl
                    <;> rcases hko.1 with rfl | rfl <;> decide
                rw [runMV_opt, if_neg hnotorig] at hc
                have hlen' : (PComp.sep :: [PComp.val]).length + ps.length ≤ n := by
                  simp only [List.length_cons, List.length_nil] at hlen ⊢
                  omega
                have hres := ih (.sep :: [.val]) ps (s0 :: u') X hlen' hsq
                  hko.2 hX hq hc
                rw [canonRender_sepval, List.cons_append] at hres
                rw [List.cons_append, runMV_opt, if_neg hnotout]
                exact hres
              | val =>
                exfalso
                rcases (by simpa [sepC] using hs : s0 = '=' ∨ s0 = ':') with rfl | rfl
                · exact val_state_vacuous (by decide) (by decide) (by decide) hc
                · exact val_state_vacuous (by decide) (by decide) (by decide) hc
          · rw [runMV_sep, if_neg hs] at hq
            simp at hq
      | opt ks =>
        rcases shapeOK_cons_opt hsq with ⟨rfl, rfl⟩ | ⟨rfl, rfl⟩
        · -- the `[s]?` optional: pattern tail is `[=:]\s*[^\s&]+`
          cases u with
          | nil => rw [runMV_nil] at hq; simp at hq
          | cons h0 u' =>
            by_cases hin : ((['s'] : List Char).any (lowEq h0)) = true
            · have hlow : h0.toLower = 's' := by
                have h1 : lowEq h0 's' = true := by simpa using hin
                exact lowEq_letter_elim (by decide) h1
              have hq' : (runMV [.sep, .val] u').isSome = true := by
                rw [runMV_opt, if_pos hin] at hq; exact hq
              rw [canonRender_opts, canonRender_sepval]
              cases cs with
              | nil => intro v r h; simp [runMV] at h
              | cons pc ps =>
                cases pc with
                | lit k =>
                  have hk := (goodT_cons_lit hg).1
                  intro v r h
                  rw [List.cons_append, runMV_lit, if_neg (by
                    simp [lowEq_small_letter_ex '=' hk.1 (by decide) (by decide)])] at h
                  simp at h
                | sep =>
                  rw [List.cons_append, runMV_sep, if_pos (by decide)]
                  exact stars_clean ps X (goodT_cons_sep hg) hX
                | opt ks' =>
                  have hko := goodT_cons_opt hg
                  rcases hko.1 with rfl | rfl
                  · -- observer also at `[s]?`: it consumes in `u`, skips in out
                    have hq2 : (runMV (.opt ['s'] :: [.sep, .val]) u').isSome
                        = true := by
                      cases u' with
                      | nil => rw [runMV_nil] at hq'; simp at hq'
                      | cons s1 u'' =>
                        by_cases hs1 : sepC s1 = true
                        · rw [runMV_opt, if_neg (by
                            rcases (by simpa [sepC] using hs1 :
                              s1 = '=' ∨ s1 = ':') with rfl | rfl <;> decide)]
                          exact hq'
                        · rw [runMV_sep, if_neg hs1] at hq'
                          simp at hq'
                    have hc' : cleanO (runMV ps u') := by
                      rw [runMV_opt, if_pos hin] at hc; exact hc
                    have hlen' :
                        (PComp.opt ['s'] :: [PComp.sep, PComp.val]).length
                          + ps.length ≤ n := by
                      simp only [List.length_cons, List.length_nil] at hlen ⊢
                      omega
                    have hres := ih (.opt ['s'] :: [.sep, .val]) ps u' X hlen'
                      hsq hko.2 hX hq2 hc'
                    rw [canonRender_opts, canonRender_sepval,
                        List.cons_append] at hres
                    rw [List.cons_append, runMV_opt, if_neg (by decide)]
                    exact hres
                  · -- observer at `[_-]?`: skips on both sides
                    have hc' : cleanO (runMV ps (h0 :: u')) := by
                      rw [runMV_opt, if_neg (by
                        simp [lowEq, hlow])] at hc
                      exact hc
                    have hlen' :
                        (PComp.opt ['s'] :: [PComp.sep, PComp.val]).length
                          + ps.length ≤ n := by
                      simp only [List.length_cons, List.length_nil] at hlen ⊢
                      omega
                    have hres := ih (.opt ['s'] :: [.sep, .val]) ps (h0 :: u')
                      X hlen' hsq hko.2 hX hq hc'
                    rw [canonRender_opts, canonRender_sepval,
                        List.cons_append] at hres
                    rw [List.cons_append, runMV_opt, if_neg (by decide)]
                    exact hres
                | val =>
                  exfalso
                  have hf := head_facts hlow (by decide) (by decide)
                    (by decide) (by decide)
                  exact val_state_vacuous hf.1 hf.2.1 hf.2.2.1 hc
            · -- `s` not present: the pattern proceeds directly to `[=:]`
              have hq' : (runMV [.sep, .val] (h0 :: u')).isSome = true := by
                rw [runMV_opt, if_neg hin] at hq; exact hq
              have hlen' : (PComp.sep :: [PComp.val]).length + cs.length
                  ≤ n := by
                simp only [List.length_cons, List.length_nil] at hlen ⊢
                omega
              have hres := ih [.sep, .val] cs (h0 :: u') X hlen' (by decide)
                hg hX hq' hc
              rw [canonRender_opts]
              exact hres
        · -- the `[_-]?` optional of the api pattern
          cases u with
          | nil => rw [runMV_nil] at hq; simp at hq
          | cons h0 u' =>
            by_cases hin : ((['_', '-'] : List Char).any (lowEq h0)) = true
            · have hlow2 : h0.toLower = '_' ∨ h0.toLower = '-' := by
                have h1 : lowEq h0 '_' = true ∨ lowEq h0 '-' = true := by
                  simpa using hin
                rcases h1 with h1 | h1
                · left
                  have hfix : ('_').toLower = '_' := by decide
                  simpa [lowEq, hfix] using h1
                · right
                  have hfix : ('-').toLower = '-' := by decide
                  simpa [lowEq, hfix] using h1
              have hq' : (runMV
                  [.lit 'k', .lit 'e', .lit 'y', .opt ['s'], .sep, .val]
                  u').isSome = true := by
                rw [runMV_opt, if_pos hin] at hq; exact hq
              rw [canonRender_optu]
              cases cs with
              | nil => intro v r h; simp [runMV] at h
              | cons pc ps =>
                cases pc with
                | lit k =>
                  have hk := (goodT_cons_lit hg).1
                  intro v r h
                  rw [List.cons_append, runMV_lit, if_neg (by
                    simp [lowEq_small_letter_ex '_' hk.1 (by decide) (by decide)])] at h
                  simp at h
                | sep =>
                  intro v r h
                  rw [List.cons_append, runMV_sep, if_neg (by decide)] at h
                  simp at h
                | opt ks' =>
                  have hko := goodT_cons_opt hg
                  rcases hko.1 with rfl | rfl
                  · -- observer at `[s]?`: skips on both sides
                    have hc' : cleanO (runMV ps (h0 :: u')) := by
                      rw [runMV_opt, if_neg (by
                        rcases hlow2 with h2 | h2 <;> simp [lowEq, h2])] at hc
                      exact hc
                    have hlen' :
                        (PComp.opt ['_', '-'] :: [PComp.lit 'k', PComp.lit 'e',
                          PComp.lit 'y', PComp.opt ['s'], PComp.sep,
                          PComp.val]).length + ps.length ≤ n := by
                      simp only [List.length_cons, List.length_nil] at hlen ⊢
                      omega
                    have hres := ih
                      (.opt ['_', '-'] :: [.lit 'k', .lit 'e', .lit 'y',
                        .opt ['s'], .sep, .val]) ps (h0 :: u') X hlen' hsq
                      hko.2 hX hq hc'
                    rw [canonRender_optu, List.cons_append] at hres
                    rw [List.cons_append, runMV_opt, if_neg (by decide)]
                    exact hres
                  · -- observer at `[_-]?`: consumes on both sides
                    have hc' : cleanO (runMV ps u') := by
                      rw [runMV_opt, if_pos hin] at hc; exact hc
                    have hlen' :
                        (PComp.lit 'k' :: [PComp.lit 'e', PComp.lit 'y',
                          PComp.opt ['s'], PComp.sep, PComp.val]).length
                          + ps.length ≤ n := by
                      simp only [List.length_cons, List.length_nil] at hlen ⊢
                      omega
                    have hres := ih
                      [.lit 'k', .lit 'e', .lit 'y', .opt ['s'], .sep, .val]
                      ps u' X hlen' (by decide) hko.2 hX hq' hc'
                    rw [List.cons_append, runMV_opt, if_pos (by decide)]
                    exact hres
                | val =>
                  exfalso
                  rcases hlow2 with h2 | h2
                  · have hf := head_facts h2 (by decide) (by decide)
                      (by decide) (by decide)
                    exact val_state_vacuous hf.1 hf.2.1 hf.2.2.1 hc
                  · have hf := head_facts h2 (by decide) (by decide)
                      (by decide) (by decide)
                    exact val_state_vacuous hf.1 hf.2.1 hf.2.2.1 hc
            · -- `[_-]` not present: pattern proceeds at `key...`
              have hq' : (runMV
                  [.lit 'k', .lit 'e', .lit 'y', .opt ['s'], .sep, .val]
                  (h0 :: u')).isSome = true := by
                rw [runMV_opt, if_neg hin] at hq; exact hq
              have hlk : lowEq h0 'k' = true := by
                by_contra hcon
                rw [runMV_lit, if_neg hcon] at hq'
                simp at hq'
              have hlow : h0.toLower = 'k' := lowEq_letter_elim (by decide) hlk
              rw [canonRender_optu]
              cases cs with
              | nil => intro v r h; simp [runMV] at h
              | cons pc ps =>
                cases pc with
                | lit k =>
                  have hk := (goodT_cons_lit hg).1
                  intro v r h
                  rw [List.cons_append, runMV_lit, if_neg (by
                    simp [lowEq_small_letter_ex '_' hk.1 (by decide) (by decide)])] at h
                  simp at h
                | sep =>
                  intro v r h
                  rw [List.cons_append, runMV_sep, if_neg (by decide)] at h
                  simp at h
                | opt ks' =>
                  have hko := goodT_cons_opt hg
                  rcases hko.1 with rfl | rfl
                  · -- observer `[s]?` skips on both sides
                    have hc' : cleanO (runMV ps (h0 :: u')) := by
                      rw [runMV_opt, if_neg (by simp [lowEq, hlow])] at hc
                      exact hc
                    have hlen' :
                        (PComp.opt ['_', '-'] :: [PComp.lit 'k', PComp.lit 'e',
                          PComp.lit 'y', PComp.opt ['s'], PComp.sep,
                          PComp.val]).length + ps.length ≤ n := by
                      simp only [List.length_cons, List.length_nil] at hlen ⊢
                      omega
                    have hres := ih
                      (.opt ['_', '-'] :: [.lit 'k', .lit 'e', .lit 'y',
                        .opt ['s'], .sep, .val]) ps (h0 :: u') X hlen' hsq
                      hko.2 hX hq hc'
                    rw [canonRender_optu, List.cons_append] at hres
                    rw [List.cons_append, runMV_opt, if_neg (by decide)]
                    exact hres
                  · -- observer `[_-]?`: consumes the rendered `_`, skips in `u`
                    have hc' : cleanO (runMV ps (h0 :: u')) := by
                      rw [runMV_opt, if_neg hin] at hc; exact hc
                    have hlen' :
                        (PComp.lit 'k' :: [PComp.lit 'e', PComp.lit 'y',
                          PComp.opt ['s'], PComp.sep, PComp.val]).length
                          + ps.length ≤ n := by
                      simp only [List.length_cons, List.length_nil] at hlen ⊢
                      omega
                    have hres := ih
                      [.lit 'k', .lit 'e', .lit 'y', .opt ['s'], .sep, .val]
                      ps (h0 :: u') X hlen' (by decide) hko.2 hX hq' hc'
                    rw [List.cons_append, runMV_opt, if_pos (by decide)]
                    exact hres
                | val =>
                  exfalso
                  have hf := head_facts hlow (by decide) (by decide)
                    (by decide) (by decide)
                  exact val_state_vacuous hf.1 hf.2.1 hf.2.2.1 hc
      | lit k0 =>
        have hsl := shapeOK_cons_lit hsq
        cases u with
        | nil => simp [runMV] at hq
        | cons h0 u' =>
          by_cases hl : lowEq h0 k0 = true
          · have hq' : (runMV psq u').isSome = true := by
              rw [runMV_lit, if_pos hl] at hq; exact hq
            have hlow : h0.toLower = k0 := lowEq_letter_elim hsl.1.1 hl
            have hfun : lowEq h0 = lowEq k0 :=
              funext (lowEq_congr (by rw [hlow, toLower_of_ge97 hsl.1.1]))
            have hlp := letter_props hsl.1.1 hsl.1.2
            rw [canonRender_lit]
            cases cs with
            | nil => intro v r h; simp [runMV] at h
            | cons pc ps =>
              cases pc with
              | lit k =>
                by_cases hlk : lowEq k0 k = true
                · have hc' : cleanO (runMV ps u') := by
                    rw [runMV_lit, hfun, if_pos hlk] at hc; exact hc
                  have hlen' : psq.length + ps.length ≤ n := by
                    simp only [List.length_cons] at hlen
                    omega
                  have hres := ih psq ps u' X hlen' hsl.2
                    (goodT_cons_lit hg).2 hX hq' hc'
                  rw [List.cons_append, runMV_lit, if_pos hlk]
                  exact hres
                · rw [List.cons_append, runMV_lit, if_neg hlk]
                  exact cleanO_none
              | sep =>
                rw [List.cons_append, runMV_sep, if_neg (by
                  simp [hlp.2.2.2.1])]
                exact cleanO_none
              | opt ks' =>
                by_cases hmem : (ks'.any (lowEq k0)) = true
                · have hc' : cleanO (runMV ps u') := by
                    rw [runMV_opt, hfun, if_pos hmem] at hc; exact hc
                  have hlen' : psq.length + ps.length ≤ n := by
                    simp only [List.length_cons] at hlen
                    omega
                  have hres := ih psq ps u' X hlen' hsl.2
                    (goodT_cons_opt hg).2 hX hq' hc'
                  rw [List.cons_append, runMV_opt, if_pos hmem]
                  exact hres
                · have hc' : cleanO (runMV ps (h0 :: u')) := by
                    rw [runMV_opt, hfun, if_neg hmem] at hc; exact hc
                  have hlen' : (PComp.lit k0 :: psq).length + ps.length
                      ≤ n := by
                    simp only [List.length_cons] at hlen ⊢
                    omega
                  have hres := ih (.lit k0 :: psq) ps (h0 :: u') X hlen' hsq
                    (goodT_cons_opt hg).2 hX hq hc'
                  rw [canonRender_lit, List.cons_append] at hres
                  rw [List.cons_append, runMV_opt, if_neg hmem]
                  exact hres
              | val =>
                exfalso
                have hf := head_facts hlow hlp.1 hlp.2.1 hlp.2.2.1
                  hlp.2.2.2.1
                exact val_state_vacuous hf.1 hf.2.1 hf.2.2.1 hc
          · rw [runMV_lit, if_neg hl] at hq
            simp at hq

theorem lowEq_small_letter_ex2 (c k : Char) (h1 : 97 ≤ k.toNat)
    (hc : c.toLower = c) (hcn : c.toNat < 97) : lowEq c k = false :=
  lowEq_small_letter h1 hc hcn

theorem isWS_props {c : Char} (hc : isWS c = true) :
    c.toLower = c ∧ c.toNat < 97 := by
  simp [isWS] at hc
  rcases hc with ((((rfl | rfl) | rfl) | rfl) | rfl) | rfl <;>
    exact ⟨by decide, by decide⟩

theorem nonVal_props {c : Char} (hc : isVal c = false) :
    c.toLower = c ∧ c.toNat < 97 := by
  by_cases hw : isWS c = true
  · exact isWS_props hw
  · have hamp : c = '&' := by
      simp [isVal, hw] at hc
      exact hc
    subst hamp
    exact ⟨by decide, by decide⟩

theorem scanP_nil {q : List PComp} : scanP q [] = [] := by
  simp [scanP]

theorem scanP_cons_match {q : List PComp} {c : Char} {l v rest : List Char}
    (h : runMV q (c :: l) = some (v, rest)) :
    scanP q (c :: l) = canonRender q ++ scanP q rest := by
  rw [scanP.eq_2]
  split
  · rename_i v2 rest2 heq
    rw [h] at heq
    have hp : v = v2 ∧ rest = rest2 := by simpa using heq
    rw [hp.2]
  · rename_i heq
    rw [h] at heq
    simp at heq

theorem scanP_cons_none {q : List PComp} {c : Char} {l : List Char}
    (h : runMV q (c :: l) = none) :
    scanP q (c :: l) = c :: scanP q l := by
  rw [scanP.eq_2]
  split
  · rename_i v2 rest2 heq
    rw [h] at heq
    simp at heq
  · rfl

/-- Each source pattern starts with a literal letter, so a match can never
begin at a character fixed by `toLower` with code below 97 (whitespace,
`&`, `*`, separators, `_`, `-`). -/
theorem pat_head_none
    {q : List PComp}
    (hqm : q = apiC ∨ q = tokenC ∨ q = secretC ∨ q = passwordC)
    {c : Char} (hc : c.toLower = c) (hcn : c.toNat < 97) (l : List Char) :
    runMV q (c :: l) = none := by
  rcases hqm with rfl | rfl | rfl | rfl
  · show runMV (.lit 'a' :: _) (c :: l) = none
    rw [runMV_lit,
        if_neg (by simp [lowEq_small_letter_ex2 c 'a' (by decide) hc hcn])]
  · show runMV (.lit 't' :: _) (c :: l) = none
    rw [runMV_lit,
        if_neg (by simp [lowEq_small_letter_ex2 c 't' (by decide) hc hcn])]
  · show runMV (.lit 's' :: _) (c :: l) = none
    rw [runMV_lit,
        if_neg (by simp [lowEq_small_letter_ex2 c 's' (by decide) hc hcn])]
  · show runMV (.lit 'p' :: _) (c :: l) = none
    rw [runMV_lit,
        if_neg (by simp [lowEq_small_letter_ex2 c 'p' (by decide) hc hcn])]

/-- Scanning preserves a non-value head. -/
theorem scan_headNonVal
    {q : List PComp}
    (hqm : q = apiC ∨ q = tokenC ∨ q = secretC ∨ q = passwordC)
    {l : List Char} (h : headNonVal l) : headNonVal (scanP q l) := by
  cases l with
  | nil => rw [scanP_nil]; trivial
  | cons c t =>
    have hcv : isVal c = false := h
    have hp := nonVal_props hcv
    rw [scanP_cons_none (pat_head_none hqm hp.1 hp.2 t)]
    exact h

theorem takeWhile_eq_cons {p : Char → Bool} {l : List Char} {x : Char}
    {xs : List Char} (h : l.takeWhile p = x :: xs) :
    ∃ t, l = x :: t ∧ p x = true ∧ t.takeWhile p = xs := by
  cases l with
  | nil => simp at h
  | cons c t =>
    rw [List.takeWhile_cons] at h
    by_cases hc : p c = true
    · rw [if_pos hc] at h
      have hp : c = x ∧ t.takeWhile p = xs := by
        constructor
        · exact (List.cons.injEq c _ x _ ▸ h).1
        · exact (List.cons.injEq c _ x _ ▸ h).2
      exact ⟨t, by rw [hp.1], by rw [← hp.1]; exact hc, hp.2⟩
    · rw [if_neg hc] at h
      simp at h

theorem takeWhile_eq_nil_head {p : Char → Bool} {l : List Char}
    (h : l.takeWhile p = []) : l = [] ∨ ∃ c t, l = c :: t ∧ p c = false := by
  cases l with
  | nil => exact Or.inl rfl
  | cons c t =>
    right
    refine ⟨c, t, rfl, ?_⟩
    rw [List.takeWhile_cons] at h
    by_cases hc : p c = true
    · rw [if_pos hc] at h
      simp at h
    · simpa using hc

theorem takeWhile_nil_of_headNonVal {l : List Char} (h : headNonVal l) :
    l.takeWhile isVal = [] := by
  cases l with
  | nil => rfl
  | cons c t =>
    have hc : isVal c = false := h
    rw [List.takeWhile_cons, if_neg (by simp [hc])]

theorem runMV_val_ws {ps : List PComp} {c : Char} {Z : List Char}
    (hw : isWS c = true) :
    runMV (.val :: ps) (c :: Z) = runMV (.val :: ps) Z := by
  simp only [runMV]
  rw [List.dropWhile_cons, if_pos hw]

theorem runMV_val_amp {ps : List PComp} {c : Char} {Z : List Char}
    (hw : isWS c = false) (hv : isVal c = false) :
    runMV (.val :: ps) (c :: Z) = none := by
  have h1 : (c :: Z).dropWhile isWS = c :: Z := by
    rw [List.dropWhile_cons, if_neg (by simp [hw])]
  have h2 : (c :: Z).takeWhile isVal = [] := by
    rw [List.takeWhile_cons, if_neg (by simp [hv])]
  simp only [runMV, h1, h2]
  simp

/-- Head transfer: replacing all matches of a source pattern in `l`
preserves head-cleanliness of every well-formed observer state. -/
theorem head_transfer
    {q : List PComp}
    (hqm : q = apiC ∨ q = tokenC ∨ q = secretC ∨ q = passwordC) :
    ∀ (n : Nat) (cs : List PComp) (l : List Char),
      cs.length + l.length ≤ n → goodT cs = true →
      cleanO (runMV cs l) → cleanO (runMV cs (scanP q l)) := by
  intro n
  induction n with
  | zero =>
    intro cs l hlen hg hc
    have hcs : cs = [] := List.eq_nil_of_length_eq_zero (by omega)
    subst hcs
    intro v r h
    simp [runMV] at h
  | succ n ih =>
    intro cs l hlen hg hc
    cases l with
    | nil =>
      rw [scanP_nil]
      exact hc
    | cons c l' =>
      cases hm : runMV q (c :: l') with
      | some p =>
        obtain ⟨v0, rest⟩ := p
        rw [scanP_cons_match hm]
        have hshape : shapeOK q = true := by
          rcases hqm with rfl | rfl | rfl | rfl <;> decide
        have hXnv : headNonVal (scanP q rest) :=
          scan_headNonVal hqm (runMV_rest_nonval hm)
        exact inner_transfer (q.length + cs.length) q cs (c :: l')
          (scanP q rest) le_rfl hshape hg hXnv (by rw [hm]; rfl) hc
      | none =>
        rw [scanP_cons_none hm]
        cases cs with
        | nil =>
          intro v r h
          simp [runMV] at h
        | cons pc ps =>
          cases pc with
          | lit k =>
            by_cases hlk : lowEq c k = true
            · rw [runMV_lit, if_pos hlk] at hc
              have hres := ih ps l'
                (by simp only [List.length_cons] at hlen; omega)
                (goodT_cons_lit hg).2 hc
              rw [runMV_lit, if_pos hlk]
              exact hres
            · rw [runMV_lit, if_neg hlk]
              exact cleanO_none
          | sep =>
            by_cases hsc : sepC c = true
            · rw [runMV_sep, if_pos hsc] at hc
              have hres := ih ps l'
                (by simp only [List.length_cons] at hlen; omega)
                (goodT_cons_sep hg) hc
              rw [runMV_sep, if_pos hsc]
              exact hres
            · rw [runMV_sep, if_neg hsc]
              exact cleanO_none
          | opt ks =>
            by_cases hany : ks.any (lowEq c) = true
            · rw [runMV_opt, if_pos hany] at hc
              have hres := ih ps l'
                (by simp only [List.length_cons] at hlen; omega)
                (goodT_cons_opt hg).2 hc
              rw [runMV_opt, if_pos hany]
              exact hres
            · rw [runMV_opt, if_neg hany] at hc
              have hres := ih ps (c :: l')
                (by simp only [List.length_cons] at hlen ⊢; omega)
                (goodT_cons_opt hg).2 hc
              rw [scanP_cons_none hm] at hres
              rw [runMV_opt, if_neg hany]
              exact hres
          | val =>
            by_cases hw : isWS c = true
            · rw [runMV_val_ws hw] at hc
              have hres := ih (.val :: ps) l'
                (by simp only [List.length_cons] at hlen ⊢; omega) hg hc
              rw [runMV_val_ws hw]
              exact hres
            · by_cases hv : isVal c = true
              · have hrun : runMV (.val :: ps) (c :: l')
                    = some (c :: l'.takeWhile isVal, l'.dropWhile isVal) :=
                  runMV_val_cons (by simp [hw]) hv
                have hcv := hc _ _ hrun
                have hcstar : c = '*' ∧ l'.takeWhile isVal = ['*', '*'] := by
                  have h0 : c :: l'.takeWhile isVal = '*' :: ['*', '*'] := hcv
                  exact List.cons_eq_cons.mp h0
                obtain ⟨t1, hl1, _, ht1⟩ := takeWhile_eq_cons hcstar.2
                obtain ⟨t2, hl2, _, ht2⟩ := takeWhile_eq_cons ht1
                have ht2nv : headNonVal t2 := by
                  rcases takeWhile_eq_nil_head ht2 with rfl | ⟨d, t3, rfl, hd⟩
                  · trivial
                  · exact hd
                have hscan : scanP q l' = '*' :: '*' :: scanP q t2 := by
                  rw [hl1, hl2,
                      scanP_cons_none (pat_head_none hqm (by decide)
                        (by decide) _),
                      scanP_cons_none (pat_head_none hqm (by decide)
                        (by decide) _)]
                intro v r h
                rw [hcstar.1] at h
                have hout : runMV (.val :: ps) ('*' :: scanP q l')
                    = some ('*' :: (scanP q l').takeWhile isVal,
                        (scanP q l').dropWhile isVal) :=
                  runMV_val_cons (by decide) (by decide)
                rw [hout] at h
                have hp : '*' :: (scanP q l').takeWhile isVal = v
                    ∧ (scanP q l').dropWhile isVal = r := by simpa using h
                rw [← hp.1]
                rw [hscan]
                rw [List.takeWhile_cons, if_pos (by decide),
                    List.takeWhile_cons, if_pos (by decide),
                    takeWhile_nil_of_headNonVal
                      (scan_headNonVal hqm ht2nv)]
                rfl
              · rw [runMV_val_amp (by simpa using hw) (by simpa using hv)]
                exact cleanO_none

theorem dropWhile_append_cons {p : Char → Bool} :
    ∀ {s : List Char} {c : Char} {t X : List Char},
      s.dropWhile p = c :: t → (s ++ X).dropWhile p = c :: (t ++ X) := by
  intro s
  induction s with
  | nil =>
    intro c t X h
    simp at h
  | cons a s' ih =>
    intro c t X h
    rw [List.dropWhile_cons] at h
    by_cases ha : p a = true
    · rw [if_pos ha] at h
      rw [List.cons_append, List.dropWhile_cons, if_pos ha]
      exact ih h
    · rw [if_neg ha] at h
      have hp := List.cons_eq_cons.mp h
      rw [List.cons_append, List.dropWhile_cons, if_neg ha, hp.1, hp.2]

/-- Soundness of the fail-fast check: if it reports failure on `s`, the
pattern fails on `s` followed by anything. -/
theorem failFast_sound : ∀ (cs : List PComp) (s X : List Char),
    failFast cs s = true → runMV cs (s ++ X) = none := by
  intro cs
  induction cs with
  | nil =>
    intro s X _
    simp [runMV]
  | cons p ps ih =>
    intro s X hf
    cases p with
    | lit k =>
      cases s with
      | nil => simp [failFast] at hf
      | cons c s' =>
        rw [List.cons_append, runMV_lit]
        by_cases hc : lowEq c k = true
        · rw [if_pos hc]
          exact ih s' X (by simpa [failFast, hc] using hf)
        · rw [if_neg hc]
    | opt ks =>
      cases s with
      | nil => simp [failFast] at hf
      | cons c s' =>
        rw [List.cons_append, runMV_opt]
        by_cases hc : ks.any (lowEq c) = true
        · rw [if_pos hc]
          exact ih s' X (by simpa [failFast, hc] using hf)
        · rw [if_neg hc]
          have hres := ih (c :: s') X (by simpa [failFast, hc] using hf)
          rw [List.cons_append] at hres
          exact hres
    | sep =>
      cases s with
      | nil => simp [failFast] at hf
      | cons c s' =>
        rw [List.cons_append, runMV_sep]
        by_cases hc : sepC c = true
        · rw [if_pos hc]
          exact ih s' X (by simpa [failFast, hc] using hf)
        · rw [if_neg hc]
    | val =>
      cases hd : s.dropWhile isWS with
      | nil => simp [failFast, hd] at hf
      | cons c t =>
        have hcv : isVal c = false := by
          have hb : (!isVal c) = true := by simpa [failFast, hd] using hf
          simpa using hb
        have hdw : (s ++ X).dropWhile isWS = c :: (t ++ X) :=
          dropWhile_append_cons hd
        have htw : List.takeWhile isVal (c :: (t ++ X)) = [] := by
          rw [List.takeWhile_cons, if_neg (by simp [hcv])]
        simp only [runMV]
        rw [hdw, htw]
        simp

theorem canon_self_api {X : List Char} (hX : headNonVal X) :
    cleanO (runMV apiC (canonRender apiC ++ X)) := by
  have hcr : canonRender apiC ++ X
      = 'a' :: 'p' :: 'i' :: '_' :: 'k' :: 'e' :: 'y' :: '=' :: '*' :: '*'
        :: '*' :: X := by
    have h0 : canonRender apiC
        = ['a', 'p', 'i', '_', 'k', 'e', 'y', '=', '*', '*', '*'] := by rfl
    rw [h0]
    simp
  rw [hcr]
  have hstep : runMV apiC
      ('a' :: 'p' :: 'i' :: '_' :: 'k' :: 'e' :: 'y' :: '=' :: '*' :: '*'
        :: '*' :: X)
      = runMV [PComp.val] (stars ++ X) := by
    simp only [apiC]
    rw [runMV_lit, if_pos (by decide), runMV_lit, if_pos (by decide),
        runMV_lit, if_pos (by decide), runMV_opt, if_pos (by decide),
        runMV_lit, if_pos (by decide), runMV_lit, if_pos (by decide),
        runMV_lit, if_pos (by decide), runMV_opt, if_neg (by decide),
        runMV_sep, if_pos (by decide), stars_append_eq]
  rw [hstep]
  exact stars_clean [PComp.val] X (by decide) hX

theorem canon_self_token {X : List Char} (hX : headNonVal X) :
    cleanO (runMV tokenC (canonRender tokenC ++ X)) := by
  have hcr : canonRender tokenC ++ X
      = 't' :: 'o' :: 'k' :: 'e' :: 'n' :: '=' :: '*' :: '*' :: '*' :: X := by
    have h0 : canonRender tokenC
        = ['t', 'o', 'k', 'e', 'n', '=', '*', '*', '*'] := by rfl
    rw [h0]
    simp
  rw [hcr]
  have hstep : runMV tokenC
      ('t' :: 'o' :: 'k' :: 'e' :: 'n' :: '=' :: '*' :: '*' :: '*' :: X)
      = runMV [PComp.val] (stars ++ X) := by
    simp only [tokenC]
    rw [runMV_lit, if_pos (by decide), runMV_lit, if_pos (by decide),
        runMV_lit, if_pos (by decide), runMV_lit, if_pos (by decide),
        runMV_lit, if_pos (by decide), runMV_opt, if_neg (by decide),
        runMV_sep, if_pos (by decide), stars_append_eq]
  rw [hstep]
  exact stars_clean [PComp.val] X (by decide) hX

theorem canon_self_secret {X : List Char} (hX : headNonVal X) :
    cleanO (runMV secretC (canonRender secretC ++ X)) := by
  have hcr : canonRender secretC ++ X
      = 's' :: 'e' :: 'c' :: 'r' :: 'e' :: 't' :: '=' :: '*' :: '*' :: '*'
        :: X := by
    have h0 : canonRender secretC
        = ['s', 'e', 'c', 'r', 'e', 't', '=', '*', '*', '*'] := by rfl
    rw [h0]
    simp
  rw [hcr]
  have hstep : runMV secretC
      ('s' :: 'e' :: 'c' :: 'r' :: 'e' :: 't' :: '=' :: '*' :: '*' :: '*'
        :: X)
      = runMV [PComp.val] (stars ++ X) := by
    simp only [secretC]
    rw [runMV_lit, if_pos (by decide), runMV_lit, if_pos (by decide),
        runMV_lit, if_pos (by decide), runMV_lit, if_pos (by decide),
        runMV_lit, if_pos (by decide), runMV_lit, if_pos (by decide),
        runMV_opt, if_neg (by decide), runMV_sep, if_pos (by decide),
        stars_append_eq]
  rw [hstep]
  exact stars_clean [PComp.val] X (by decide) hX

theorem canon_self_password {X : List Char} (hX : headNonVal X) :
    cleanO (runMV passwordC (canonRender passwordC ++ X)) := by
  have hcr : canonRender passwordC ++ X
      = 'p' :: 'a' :: 's' :: 's' :: 'w' :: 'o' :: 'r' :: 'd' :: '=' :: '*'
        :: '*' :: '*' :: X := by
    have h0 : canonRender passwordC
        = ['p', 'a', 's', 's', 'w', 'o', 'r', 'd', '=', '*', '*', '*'] := by
      rfl
    rw [h0]
    simp
  rw [hcr]
  have hstep : runMV passwordC
      ('p' :: 'a' :: 's' :: 's' :: 'w' :: 'o' :: 'r' :: 'd' :: '=' :: '*'
        :: '*' :: '*' :: X)
      = runMV [PComp.val] (stars ++ X) := by
    simp only [passwordC]
    rw [runMV_lit, if_pos (by decide), runMV_lit, if_pos (by decide),
        runMV_lit, if_pos (by decide), runMV_lit, if_pos (by decide),
        runMV_lit, if_pos (by decide), runMV_lit, if_pos (by decide),
        runMV_lit, if_pos (by decide), runMV_lit, if_pos (by decide),
        runMV_opt, if_neg (by decide), runMV_sep, if_pos (by decide),
        stars_append_eq]
  rw [hstep]
  exact stars_clean [PComp.val] X (by decide) hX

/-- A pattern applied to its own canonical rendering yields value `***`. -/
theorem canon_self
    {q : List PComp}
    (hqm : q = apiC ∨ q = tokenC ∨ q = secretC ∨ q = passwordC)
    {X : List Char} (hX : headNonVal X) :
    cleanO (runMV q (canonRender q ++ X)) := by
  rcases hqm with rfl | rfl | rfl | rfl
  · exact canon_self_api hX
  · exact canon_self_token hX
  · exact canon_self_secret hX
  · exact canon_self_password hX

theorem suffix_append_cases {u a b : List Char} (h : u <:+ a ++ b) :
    u <:+ b ∨ ∃ s, s <:+ a ∧ s ≠ [] ∧ u = s ++ b := by
  induction a with
  | nil =>
    left
    simpa using h
  | cons x a' ih =>
    rw [List.cons_append] at h
    rcases List.suffix_cons_iff.mp h with rfl | h2
    · right
      exact ⟨x :: a', List.suffix_rfl, by simp, by rw [List.cons_append]⟩
    · rcases ih h2 with hb | ⟨s, hs1, hs2, hs3⟩
      · exact Or.inl hb
      · exact Or.inr ⟨s, hs1.trans (List.suffix_cons x a'), hs2, hs3⟩

/-- Suffix-closure of cleanliness under one global replacement pass:
replacing the matches of pattern `q` makes the result clean for `q`
itself, and preserves cleanliness for any other source pattern `p`. -/
theorem scan_clean
    {q : List PComp}
    (hqm : q = apiC ∨ q = tokenC ∨ q = secretC ∨ q = passwordC)
    {p : List PComp}
    (hpm : p = apiC ∨ p = tokenC ∨ p = secretC ∨ p = passwordC) :
    ∀ (n : Nat) (l : List Char), l.length ≤ n →
      (p = q ∨ CleanL p l) → CleanL p (scanP q l) := by
  intro n
  induction n with
  | zero =>
    intro l hlen hp
    have hln : l = [] := List.eq_nil_of_length_eq_zero (by omega)
    subst hln
    rw [scanP_nil]
    intro u hu
    have hun : u = [] := List.suffix_nil.mp hu
    subst hun
    intro v r h
    rw [runMV_nil] at h
    simp at h
  | succ n ih =>
    intro l hlen hp
    cases l with
    | nil =>
      rw [scanP_nil]
      intro u hu
      have hun : u = [] := List.suffix_nil.mp hu
      subst hun
      intro v r h
      rw [runMV_nil] at h
      simp at h
    | cons c l' =>
      cases hm : runMV q (c :: l') with
      | some pr =>
        obtain ⟨v0, rest⟩ := pr
        rw [scanP_cons_match hm]
        intro u hu
        rcases suffix_append_cases hu with hub | ⟨s, hs1, hs2, rfl⟩
        · have hrs : rest <:+ c :: l' := runMV_rest_suffix hm
          have hp' : p = q ∨ CleanL p rest := by
            rcases hp with h | h
            · exact Or.inl h
            · exact Or.inr (fun w hw => h w (hw.trans hrs))
          have hlen' : rest.length ≤ n := by
            have := runMV_some_lt hm
            simp only [List.length_cons] at this hlen
            omega
          exact ih rest hlen' hp' u hub
        · have hXnv : headNonVal (scanP q rest) :=
            scan_headNonVal hqm (runMV_rest_nonval hm)
          have hall : ∀ t ∈ (canonRender q).tails,
              t = [] ∨ t = canonRender q ∨ failFast p t = true := by
            rcases hpm with rfl | rfl | rfl | rfl <;>
              rcases hqm with rfl | rfl | rfl | rfl <;> decide
          rcases hall s ((List.mem_tails _ _).mpr hs1) with rfl | rfl | hff
          · exact absurd rfl hs2
          · by_cases hpq : p = q
            · subst hpq
              exact canon_self hpm hXnv
            · have hffc : failFast p (canonRender q) = true := by
                rcases hpm with rfl | rfl | rfl | rfl <;>
                  rcases hqm with rfl | rfl | rfl | rfl <;>
                  first
                  | exact absurd rfl hpq
                  | decide
              intro v r h
              rw [failFast_sound p (canonRender q) (scanP q rest) hffc] at h
              simp at h
          · intro v r h
            rw [failFast_sound p s (scanP q rest) hff] at h
            simp at h
      | none =>
        rw [scanP_cons_none hm]
        intro u hu
        rcases List.suffix_cons_iff.mp hu with rfl | hu'
        · have hgp : goodT p = true := by
            rcases hpm with rfl | rfl | rfl | rfl <;> decide
          have hcl : cleanO (runMV p (c :: l')) := by
            rcases hp with rfl | h
            · intro v r hh
              rw [hm] at hh
              simp at hh
            · exact h (c :: l') List.suffix_rfl
          have hres := head_transfer hqm (p.length + (c :: l').length) p
            (c :: l') le_rfl hgp hcl
          rw [scanP_cons_none hm] at hres
          exact hres
        · have hp' : p = q ∨ CleanL p l' := by
            rcases hp with h | h
            · exact Or.inl h
            · exact Or.inr (fun w hw => h w (hw.trans (List.suffix_cons c l')))
          exact ih l' (by simp only [List.length_cons] at hlen; omega) hp' u hu'

/-- Main sanitizer theorem: after the four replacement passes, the text is
clean for all four secret patterns. -/
theorem sanitize_NoLeak (l : List Char) : NoLeak (sanitizeChars l) := by
  have pa : ∀ x : List PComp, x = apiC →
      x = apiC ∨ x = tokenC ∨ x = secretC ∨ x = passwordC :=
    fun x h => Or.inl h
  have pt : ∀ x : List PComp, x = tokenC →
      x = apiC ∨ x = tokenC ∨ x = secretC ∨ x = passwordC :=
    fun x h => Or.inr (Or.inl h)
  have ps : ∀ x : List PComp, x = secretC →
      x = apiC ∨ x = tokenC ∨ x = secretC ∨ x = passwordC :=
    fun x h => Or.inr (Or.inr (Or.inl h))
  have pp : ∀ x : List PComp, x = passwordC →
      x = apiC ∨ x = tokenC ∨ x = secretC ∨ x = passwordC :=
    fun x h => Or.inr (Or.inr (Or.inr h))
  have h1 : CleanL apiC (scanP apiC l) :=
    scan_clean (pa _ rfl) (pa _ rfl) l.length l le_rfl (Or.inl rfl)
  have l2 := scanP apiC l
  have h2a : CleanL apiC (scanP tokenC (scanP apiC l)) :=
    scan_clean (pt _ rfl) (pa _ rfl) (scanP apiC l).length (scanP apiC l)
      le_rfl (Or.inr h1)
  have h2t : CleanL tokenC (scanP tokenC (scanP apiC l)) :=
    scan_clean (pt _ rfl) (pt _ rfl) (scanP apiC l).length (scanP apiC l)
      le_rfl (Or.inl rfl)
  have h3a : CleanL apiC (scanP secretC (scanP tokenC (scanP apiC l))) :=
    scan_clean (ps _ rfl) (pa _ rfl) _ _ le_rfl (Or.inr h2a)
  have h3t : CleanL tokenC (scanP secretC (scanP tokenC (scanP apiC l))) :=
    scan_clean (ps _ rfl) (pt _ rfl) _ _ le_rfl (Or.inr h2t)
  have h3s : CleanL secretC (scanP secretC (scanP tokenC (scanP apiC l))) :=
    scan_clean (ps _ rfl) (ps _ rfl) _ _ le_rfl (Or.inl rfl)
  refine ⟨?_, ?_, ?_, ?_⟩
  · exact scan_clean (pp _ rfl) (pa _ rfl) _ _ le_rfl (Or.inr h3a)
  · exact scan_clean (pp _ rfl) (pt _ rfl) _ _ le_rfl (Or.inr h3t)
  · exact scan_clean (pp _ rfl) (ps _ rfl) _ _ le_rfl (Or.inr h3s)
  · exact scan_clean (pp _ rfl) (pp _ rfl) _ _ le_rfl (Or.inl rfl)

theorem cleanB_sound {p : List PComp} {t : List Char}
    (h : cleanB p t = true) : CleanL p t := by
  intro u hu v r hr
  have hx := List.all_eq_true.mp h u ((List.mem_tails _ _).mpr hu)
  rw [hr] at hx
  simpa using hx

/-- C6: for every transport outcome, the error text `makeRequest` returns
(when any) contains no surviving secret occurrence: every match of the
four secret patterns (`api_key`, `token`, `secret`, `password` variants,
case-insensitively, with `=` or `:`, followed by a value) in the returned
error string has the redacted value `***`. -/
theorem C6_error_text_never_leaks_secret :
    ∀ o : HttpOutcome, errFieldClean (makeRequest o) := by
  intro o
  cases o with
  | response s d =>
    intro e he
    simp [makeRequest] at he
  | axiosError rs m =>
    intro e he
    have hee : sanitizeError m = e := by simpa [makeRequest] using he
    rw [← hee]
    show NoLeak (sanitizeChars m.data)
    exact sanitize_NoLeak m.data
  | otherError =>
    intro e he
    have hee : "Unknown network error" = e := by simpa [makeRequest] using he
    rw [← hee]
    have hd : ("Unknown network error").data
        = ['U', 'n', 'k', 'n', 'o', 'w', 'n', ' ', 'n', 'e', 't', 'w', 'o',
           'r', 'k', ' ', 'e', 'r', 'r', 'o', 'r'] := rfl
    show NoLeak ("Unknown network error").data
    rw [hd]
    exact ⟨cleanB_sound (by decide), cleanB_sound (by decide),
           cleanB_sound (by decide), cleanB_sound (by decide)⟩

end RozeMcp
